import Mathlib

/-!
Verification of the p2-strategy subsystem of the fintech repository.

The Python sources are shallowly embedded:
* Python `datetime.date` values are represented by their proleptic Gregorian
  ordinal (`date.toordinal()`), a natural number.  Adding `timedelta(days=1)`
  is ordinal successor, `date.weekday()` is `(ordinal + 6) % 7` (Monday = 0),
  and equality of `strftime('%Y-%m-%d')` strings between two dates coincides
  with equality of their ordinals, so a membership test of a formatted date in
  a list of holiday strings is membership of the ordinal in the list of the
  holiday ordinals.
* MySQL rows are records in Lean lists; a `SELECT ... WHERE` is a filter over
  the list, an `UPDATE ... WHERE id = ?` maps over the list updating matching
  rows, an `ORDER BY` is a stable sort and `LIMIT n` is `List.take n`.
* Prices, money and probabilities are embedded as rationals.
* Fallible Python code (IndexError, ZeroDivisionError, raise) is embedded with
  `Except`; a `while True` loop is embedded with explicit fuel, `none`
  standing for a loop that has not terminated within the fuel.
-/

/-! ### Calendar utilities (`common_utility.py`) -/

/-- True on proleptic-Gregorian leap years, as Python `calendar.isleap`. -/
def isLeapYear (y : Nat) : Bool :=
  (y % 4 == 0 && y % 100 != 0) || y % 400 == 0

/-- Days before the first of month `m` (1-based) in a non-leap year. -/
def daysBeforeMonth (m : Nat) : Nat :=
  [0, 31, 59, 90, 120, 151, 181, 212, 243, 273, 304, 334].getD (m - 1) 0

/-- Proleptic Gregorian ordinal of the date `y-m-d`, matching Python
`datetime.date(y, m, d).toordinal()` (ordinal 1 is 0001-01-01, a Monday). -/
def toOrdinal (y m d : Nat) : Nat :=
  let py := y - 1
  365 * py + py / 4 - py / 100 + py / 400 + daysBeforeMonth m +
    (if 2 < m && isLeapYear y then 1 else 0) + d

/-- Python `date.weekday()` of the date with ordinal `o`: Monday = 0 ...
Sunday = 6. -/
def pyWeekday (o : Nat) : Nat := (o + 6) % 7

/-- The NSE 2026 holiday list of `is_trading_day_nse`, as date ordinals. -/
def nseHolidays : List Nat :=
  [toOrdinal 2026 1 26, toOrdinal 2026 3 14, toOrdinal 2026 3 30,
   toOrdinal 2026 4 2, toOrdinal 2026 4 3, toOrdinal 2026 4 14,
   toOrdinal 2026 5 1, toOrdinal 2026 8 15, toOrdinal 2026 8 31,
   toOrdinal 2026 10 2, toOrdinal 2026 10 20, toOrdinal 2026 10 21,
   toOrdinal 2026 11 4, toOrdinal 2026 11 16, toOrdinal 2026 12 25]

/-- The BSE 2026 holiday list of `is_trading_day_bse` (textually the same
fifteen dates as the NSE list in the source). -/
def bseHolidays : List Nat := nseHolidays

/-- `is_trading_day_nse(date)`: the source formats the date and returns
whether the string is *not* in the holiday list.  No weekday test occurs. -/
def is_trading_day_nse (o : Nat) : Bool := !(nseHolidays.contains o)

/-- `is_trading_day_bse(date)`: same shape as the NSE variant. -/
def is_trading_day_bse (o : Nat) : Bool := !(bseHolidays.contains o)

/-- One acceptance test of the `get_next_business_day` loop body: the day is
kept when it is not a weekend and not skipped by the holiday test of the
requested exchange. -/
def acceptedBusinessDay (exchange : String) (o : Nat) : Bool :=
  !(pyWeekday o ≥ 5) &&
  !(exchange == "NSE" && !(is_trading_day_nse o)) &&
  !(exchange == "BSE" && !(is_trading_day_bse o))

/-- The `while True` loop of `get_next_business_day`, with fuel.  `itr` is the
Python `itr` counter: it is decremented only when an accepted day is found and
the `raise` fires only if it then is `≤ 0`.  `none` models a loop that has not
returned within `fuel` iterations. -/
def nextBusinessDayLoop (exchange : String) :
    Nat → Int → Nat → Option (Except String Nat)
  | 0, _, _ => none
  | fuel + 1, itr, o =>
    let o1 := o + 1
    if pyWeekday o1 ≥ 5 then nextBusinessDayLoop exchange fuel itr o1
    else if exchange == "NSE" && !(is_trading_day_nse o1) then
      nextBusinessDayLoop exchange fuel itr o1
    else if exchange == "BSE" && !(is_trading_day_bse o1) then
      nextBusinessDayLoop exchange fuel itr o1
    else if itr - 1 ≤ 0 then
      some (Except.error "Too many iterations while finding next business day")
    else some (Except.ok o1)

/-- `get_next_business_day(current_date, exchange)`: run the loop from the
given date with the source's initial `itr = 100`; the fuel `101` is enough
because (as proved below) a trading day always occurs within 14 days. -/
def get_next_business_day (exchange : String) (o : Nat) :
    Option (Except String Nat) :=
  nextBusinessDayLoop exchange 101 100 o

/-- The smallest ordinal strictly above `o` whose residue mod 7 is 4, i.e.
the first Thursday after the date `o`. -/
def thursdayAfter (o : Nat) : Nat := o + 1 + (11 - (o + 1) % 7) % 7

lemma thursdayAfter_mod : ∀ o : Nat, thursdayAfter o % 7 = 4 := by
  intro o
  unfold thursdayAfter
  omega

lemma thursdayAfter_gt (o : Nat) : o < thursdayAfter o := by
  unfold thursdayAfter; omega

lemma thursdayAfter_le (o : Nat) : thursdayAfter o ≤ o + 7 := by
  unfold thursdayAfter; omega

/-- Among the fifteen holiday ordinals only 2026-04-02 is ≡ 4 (mod 7), i.e.
only one listed holiday falls on a Thursday. -/
lemma holiday_mod_four (h : Nat) (hh : h ∈ nseHolidays) (hm : h % 7 = 4) :
    h = toOrdinal 2026 4 2 := by
  fin_cases hh <;> first | rfl | (exfalso; revert hm; decide)

/-- Unfolded propositional form of the business-day acceptance test. -/
lemma acceptedBusinessDay_iff (exchange : String) (o : Nat) :
    acceptedBusinessDay exchange o = true ↔
      pyWeekday o < 5 ∧
      (exchange = "NSE" → is_trading_day_nse o = true) ∧
      (exchange = "BSE" → is_trading_day_bse o = true) := by
  simp only [acceptedBusinessDay, Bool.and_eq_true, Bool.not_eq_true',
    Bool.and_eq_false_iff, Bool.not_eq_false', beq_eq_false_iff_ne,
    ne_eq, beq_iff_eq, decide_eq_false_iff_not, not_le]
  constructor
  · rintro ⟨⟨h1, h2⟩, h3⟩
    exact ⟨h1, fun he => h2.resolve_left (not_not_intro he),
      fun he => h3.resolve_left (not_not_intro he)⟩
  · rintro ⟨h1, h2, h3⟩
    exact ⟨⟨h1, by tauto⟩, by tauto⟩

/-- A day with residue 4 mod 7 is accepted by the business-day test for any
exchange, unless it is the single Thursday holiday. -/
lemma thursday_accepted (exchange : String) (t : Nat) (ht : t % 7 = 4)
    (hne : t ≠ toOrdinal 2026 4 2) : acceptedBusinessDay exchange t = true := by
  have hnh : ¬ (t ∈ nseHolidays) := fun hmem => hne (holiday_mod_four t hmem ht)
  have hw : pyWeekday t = 3 := by unfold pyWeekday; omega
  have hcontains : nseHolidays.contains t = false := by simpa using hnh
  rw [acceptedBusinessDay_iff]
  refine ⟨by omega, ?_, ?_⟩
  · intro _
    simp only [is_trading_day_nse, Bool.not_eq_true']
    exact hcontains
  · intro _
    simp only [is_trading_day_bse, bseHolidays, Bool.not_eq_true']
    exact hcontains

/-- For every start date there is an accepted business day within the next 14
calendar days (one of the first two Thursdays is not a holiday). -/
lemma accepted_within_14 (exchange : String) (o : Nat) :
    ∃ t, o < t ∧ t ≤ o + 14 ∧ acceptedBusinessDay exchange t = true := by
  by_cases h : thursdayAfter o = toOrdinal 2026 4 2
  · refine ⟨thursdayAfter o + 7, ?_, ?_, ?_⟩
    · have := thursdayAfter_gt o; omega
    · have := thursdayAfter_le o; omega
    · refine thursday_accepted exchange _ ?_ ?_
      · have := thursdayAfter_mod o; omega
      · omega
  · refine ⟨thursdayAfter o, thursdayAfter_gt o, ?_, ?_⟩
    · have := thursdayAfter_le o; omega
    · exact thursday_accepted exchange _ (thursdayAfter_mod o) h

/-- One loop step when the next day is rejected: the loop just advances. -/
lemma nextBusinessDayLoop_succ_skip (exchange : String) (n : Nat) (itr : Int)
    (o : Nat) (h : acceptedBusinessDay exchange (o + 1) = false) :
    nextBusinessDayLoop exchange (n + 1) itr o =
      nextBusinessDayLoop exchange n itr (o + 1) := by
  by_cases c1 : pyWeekday (o + 1) ≥ 5
  · simp [nextBusinessDayLoop, c1]
  · by_cases c2 : (exchange == "NSE" && !(is_trading_day_nse (o + 1))) = true
    · simp [nextBusinessDayLoop, c1, c2]
    · by_cases c3 : (exchange == "BSE" && !(is_trading_day_bse (o + 1))) = true
      · simp [nextBusinessDayLoop, c1, c2, c3]
      · exfalso
        have : acceptedBusinessDay exchange (o + 1) = true := by
          rw [acceptedBusinessDay_iff]
          refine ⟨by omega, fun he => ?_, fun he => ?_⟩
          · by_contra hb
            exact c2 (by simp [he, Bool.eq_false_iff.mpr hb])
          · by_contra hb
            exact c3 (by simp [he, Bool.eq_false_iff.mpr hb])
        simp [this] at h
/-- One loop step when the next day is accepted and the `itr` budget is still
at least 2: the loop returns that day. -/
lemma nextBusinessDayLoop_succ_hit (exchange : String) (n : Nat) (itr : Int)
    (o : Nat) (hitr : 2 ≤ itr) (h : acceptedBusinessDay exchange (o + 1) = true) :
    nextBusinessDayLoop exchange (n + 1) itr o = some (Except.ok (o + 1)) := by
  rw [acceptedBusinessDay_iff] at h
  obtain ⟨h1, h2, h3⟩ := h
  have c1 : ¬ (pyWeekday (o + 1) ≥ 5) := by omega
  have c2 : (exchange == "NSE" && !(is_trading_day_nse (o + 1))) = false := by
    by_cases he : exchange = "NSE"
    · simp [he, h2 he]
    · simp [he]
  have c3 : (exchange == "BSE" && !(is_trading_day_bse (o + 1))) = false := by
    by_cases he : exchange = "BSE"
    · simp [he, h3 he]
    · simp [he]
  have c4 : ¬ ((itr - 1 : Int) ≤ 0) := by omega
  simp [nextBusinessDayLoop, c1, c2, c3, c4]

/-- If some accepted day exists within the fuel horizon, the loop (with an
`itr` budget of at least 2, as in the source where `itr` is still 100 when the
first accepted day is reached) returns `ok` of the least accepted day. -/
lemma nextBusinessDayLoop_finds (exchange : String) :
    ∀ (fuel : Nat) (o : Nat) (itr : Int), 2 ≤ itr →
    (∃ t, o < t ∧ t ≤ o + fuel ∧ acceptedBusinessDay exchange t = true) →
    ∃ r, nextBusinessDayLoop exchange fuel itr o = some (Except.ok r) ∧
      o < r ∧ acceptedBusinessDay exchange r = true ∧
      ∀ t, o < t → t < r → acceptedBusinessDay exchange t = false := by
  intro fuel
  induction fuel with
  | zero =>
    intro o itr _ ⟨t, ht1, ht2, _⟩
    omega
  | succ n ih =>
    intro o itr hitr ⟨t, ht1, ht2, ht3⟩
    by_cases hacc : acceptedBusinessDay exchange (o + 1) = true
    · exact ⟨o + 1, nextBusinessDayLoop_succ_hit exchange n itr o hitr hacc,
        by omega, hacc, by intro u h1 h2; omega⟩
    · have hacc' : acceptedBusinessDay exchange (o + 1) = false :=
        Bool.eq_false_iff.mpr hacc
      have hex : ∃ u, o + 1 < u ∧ u ≤ (o + 1) + n ∧
          acceptedBusinessDay exchange u = true := by
        refine ⟨t, ?_, by omega, ht3⟩
        rcases Nat.lt_or_ge (o + 1) t with h | h
        · exact h
        · exfalso
          have : t = o + 1 := by omega
          rw [this] at ht3
          exact hacc ht3
      rcases ih (o + 1) itr hitr hex with ⟨r, hr1, hr2, hr3, hr4⟩
      refine ⟨r, ?_, by omega, hr3, ?_⟩
      · rw [nextBusinessDayLoop_succ_skip exchange n itr o hacc']
        exact hr1
      · intro u hu1 hu2
        rcases Nat.lt_or_ge u (o + 2) with h | h
        · have : u = o + 1 := by omega
          rw [this]
          exact hacc'
        · exact hr4 u (by omega) hu2

/-- C6: for every input date and exchange, `get_next_business_day` returns
(without raising and without looping forever) the smallest date strictly
greater than the input that is accepted as a trading day; moreover a trading
day always exists within 100 calendar days of the input, so the claimed
failure condition "no trading day within 100 calendar days" never arises, and
the conditional "fails if no trading day is found within 100 calendar days"
holds vacuously. -/
theorem get_next_business_day_correct (exchange : String) (o : Nat) :
    (∃ r, get_next_business_day exchange o = some (Except.ok r) ∧
        o < r ∧ acceptedBusinessDay exchange r = true ∧
        ∀ t, o < t → t < r → acceptedBusinessDay exchange t = false) ∧
    (∃ t, o < t ∧ t ≤ o + 100 ∧ acceptedBusinessDay exchange t = true) ∧
    ((∀ t, o < t → t ≤ o + 100 → acceptedBusinessDay exchange t = false) →
      ∃ msg, get_next_business_day exchange o = some (Except.error msg)) := by
  have hex14 := accepted_within_14 exchange o
  have hex100 : ∃ t, o < t ∧ t ≤ o + 100 ∧
      acceptedBusinessDay exchange t = true := by
    rcases hex14 with ⟨t, h1, h2, h3⟩
    exact ⟨t, h1, by omega, h3⟩
  refine ⟨?_, hex100, ?_⟩
  · have hex101 : ∃ t, o < t ∧ t ≤ o + 101 ∧
        acceptedBusinessDay exchange t = true := by
      rcases hex14 with ⟨t, h1, h2, h3⟩
      exact ⟨t, h1, by omega, h3⟩
    exact nextBusinessDayLoop_finds exchange 101 o 100 (by omega) hex101
  · intro hnone
    exfalso
    rcases hex100 with ⟨t, h1, h2, h3⟩
    have := hnone t h1 h2
    rw [this] at h3
    exact Bool.false_ne_true h3

/-- C7 counterexample: 2026-01-03 is a Saturday (`weekday = 5`) that is not in
the holiday lists, yet both `is_trading_day_nse` and `is_trading_day_bse`
return `true` on it, refuting the claim that they return false on Saturdays
and Sundays. -/
theorem is_trading_day_weekend_cex :
    is_trading_day_nse (toOrdinal 2026 1 3) = true ∧
    is_trading_day_bse (toOrdinal 2026 1 3) = true ∧
    pyWeekday (toOrdinal 2026 1 3) = 5 := by decide

/-- C7 amended: `is_trading_day_nse` / `is_trading_day_bse` return false
exactly when the date lies in the corresponding static holiday list; they
never consult the weekday (the weekend skip lives in
`get_next_business_day`). -/
theorem is_trading_day_amended (o : Nat) :
    (is_trading_day_nse o = false ↔ o ∈ nseHolidays) ∧
    (is_trading_day_bse o = false ↔ o ∈ bseHolidays) := by
  constructor <;> simp [is_trading_day_nse, is_trading_day_bse]

/-! ### Task dispatcher window query (`strategy_task_handler.py`,
`db_client.store_strategy_execution_task`) -/

/-- A `strategy_execution_tasks` row, restricted to the columns that the
dispatcher window query reads. -/
structure DispatchTask where
  id : Int
  status : String
  timestamp_of_execution : Int
  day_of_execution : Nat
  created_at : Int
  deriving DecidableEq

/-- Stable insert for an ascending insertion sort by an integer key. -/
def insertAscBy {α : Type} (key : α → Int) (a : α) : List α → List α
  | [] => [a]
  | b :: l => if key a ≤ key b then a :: b :: l else b :: insertAscBy key a l

/-- Stable ascending sort by an integer key (`ORDER BY ... ASC`). -/
def sortAscBy {α : Type} (key : α → Int) : List α → List α
  | [] => []
  | a :: l => insertAscBy key a (sortAscBy key l)

/-- `TaskHandler.get_pending_tasks(time_left, time_right, day_of_execution)`:
the SQL query filters on `status = 'pending'`, an inclusive timestamp window
and the execution day, orders ascending by `created_at` and limits to 10. -/
def get_pending_tasks (tasks : List DispatchTask) (time_left time_right : Int)
    (day : Nat) : List DispatchTask :=
  (sortAscBy (fun t => t.created_at) (tasks.filter (fun t =>
      t.status == "pending" && time_left ≤ t.timestamp_of_execution &&
      t.timestamp_of_execution ≤ time_right &&
      t.day_of_execution == day))).take 10

/-- Modelled from the spec: the claimed query, identical to
`get_pending_tasks` except that it selects status `queued` — the status that
`store_strategy_execution_task` actually assigns to every created task. -/
def get_pending_tasks_claimed (tasks : List DispatchTask)
    (time_left time_right : Int) (day : Nat) : List DispatchTask :=
  (sortAscBy (fun t => t.created_at) (tasks.filter (fun t =>
      t.status == "queued" && time_left ≤ t.timestamp_of_execution &&
      t.timestamp_of_execution ≤ time_right &&
      t.day_of_execution == day))).take 10

/-- `DBClient.store_strategy_execution_task`: the INSERT hard-codes the
status literal `queued` for the new row, whatever the input dictionary
holds. -/
def store_strategy_execution_task (tasks : List DispatchTask) (id : Int)
    (timestamp_of_execution : Int) (day_of_execution : Nat)
    (created_at : Int) : List DispatchTask :=
  tasks ++ [{ id := id, status := "queued",
              timestamp_of_execution := timestamp_of_execution,
              day_of_execution := day_of_execution,
              created_at := created_at }]

/-- C2: a task stored by `store_strategy_execution_task` gets status
`queued`, but the dispatcher window query selects status `pending`, so the
dispatcher selects nothing even for a task that is due inside the window
(here: scheduled second 34200, window `[34030, 34210]`, matching day), while
the claimed query (status = creation status `queued`) selects the task. -/
theorem dispatcher_status_mismatch :
    get_pending_tasks
        (store_strategy_execution_task [] 1 34200 739250 0) 34030 34210 739250
      = [] ∧
    get_pending_tasks_claimed
        (store_strategy_execution_task [] 1 34200 739250 0) 34030 34210 739250
      = [{ id := 1, status := "queued", timestamp_of_execution := 34200,
           day_of_execution := 739250, created_at := 0 }] := by
  constructor <;> rfl

/-! ### Follow-up task creation (`TaskHandler.create_follow_up_task`) -/

/-- A task row as read by the dispatcher when processing it. -/
structure HandlerTask where
  id : Int
  execution_detail_id : Int
  order_type : String
  day_of_execution : Nat
  timestamp_of_execution : Option Int
  x : Int
  y : Int
  current_money : ℚ
  current_shares : Int
  days_remaining : Int
  stimulate_mode : Bool
  stock : String
  exchange : String

/-- The broker response fields that `create_follow_up_task` reads. -/
structure OrderResult where
  shares_bought : Int
  total_amount : ℚ

/-- The dictionary handed to `store_strategy_execution_task` for a follow-up
task. -/
structure NewTaskRow where
  execution_detail_id : Int
  timestamp_of_execution : Option Int
  day_of_execution : Nat
  current_money : ℚ
  current_shares : Int
  order_type : String
  stimulate_mode : Bool
  x : Int
  y : Int
  stock : String
  exchange : String
  days_remaining : Int
  previous_task_id : Int

/-- The effect `create_follow_up_task` has on the store. -/
inductive FollowUpEffect
  | storeTask (row : NewTaskRow)
  | completeDetail (detail_id : Int)
  | noEffect

/-- `TaskHandler.create_follow_up_task(task, result)`: after a buy, create the
sell task of the same day at second `y`; after a sell with more days
remaining, create the buy task of the next calendar day with no scheduled
second (`timestamp_of_execution = None`); after the last sell, complete the
parent detail. -/
def create_follow_up_task (task : HandlerTask) (result : OrderResult) :
    FollowUpEffect :=
  if task.order_type = "buy" then
    FollowUpEffect.storeTask
      { execution_detail_id := task.execution_detail_id,
        timestamp_of_execution := some task.y,
        day_of_execution := task.day_of_execution,
        current_money := 0,
        current_shares := result.shares_bought,
        order_type := "sell",
        stimulate_mode := task.stimulate_mode,
        x := task.x, y := task.y,
        stock := task.stock, exchange := task.exchange,
        days_remaining := task.days_remaining,
        previous_task_id := task.id }
  else if task.order_type = "sell" then
    if task.days_remaining > 1 then
      FollowUpEffect.storeTask
        { execution_detail_id := task.execution_detail_id,
          timestamp_of_execution := none,
          day_of_execution := task.day_of_execution + 1,
          current_money := result.total_amount,
          current_shares := 0,
          order_type := "buy",
          stimulate_mode := task.stimulate_mode,
          x := task.x, y := task.y,
          stock := task.stock, exchange := task.exchange,
          days_remaining := task.days_remaining - 1,
          previous_task_id := task.id }
    else FollowUpEffect.completeDetail task.execution_detail_id
  else FollowUpEffect.noEffect

/-- C9: the follow-on buy task created after a successful sell with
`days_remaining > 1` carries `timestamp_of_execution = none` (no scheduled
second-of-day), while the follow-on sell task created after a successful buy
inherits the processed task's `y` as its `timestamp_of_execution`. -/
theorem create_follow_up_task_timestamps (task : HandlerTask)
    (result : OrderResult) :
    (task.order_type = "sell" → task.days_remaining > 1 →
      create_follow_up_task task result = FollowUpEffect.storeTask
        { execution_detail_id := task.execution_detail_id,
          timestamp_of_execution := none,
          day_of_execution := task.day_of_execution + 1,
          current_money := result.total_amount,
          current_shares := 0,
          order_type := "buy",
          stimulate_mode := task.stimulate_mode,
          x := task.x, y := task.y,
          stock := task.stock, exchange := task.exchange,
          days_remaining := task.days_remaining - 1,
          previous_task_id := task.id }) ∧
    (task.order_type = "buy" →
      create_follow_up_task task result = FollowUpEffect.storeTask
        { execution_detail_id := task.execution_detail_id,
          timestamp_of_execution := some task.y,
          day_of_execution := task.day_of_execution,
          current_money := 0,
          current_shares := result.shares_bought,
          order_type := "sell",
          stimulate_mode := task.stimulate_mode,
          x := task.x, y := task.y,
          stock := task.stock, exchange := task.exchange,
          days_remaining := task.days_remaining,
          previous_task_id := task.id }) := by
  constructor
  · intro hs hd
    simp [create_follow_up_task, hs, hd]
  · intro hb
    simp [create_follow_up_task, hb]

/-- A concrete sell task with two days remaining, for the C9 witness. -/
def sampleSellTask : HandlerTask :=
  { id := 7, execution_detail_id := 3, order_type := "sell",
    day_of_execution := 739250, timestamp_of_execution := some 35100,
    x := 33300, y := 35100, current_money := 0, current_shares := 12,
    days_remaining := 3, stimulate_mode := true,
    stock := "TCS", exchange := "NSE" }

/-- A concrete buy task, for the C9 witness. -/
def sampleBuyTask : HandlerTask :=
  { id := 8, execution_detail_id := 3, order_type := "buy",
    day_of_execution := 739251, timestamp_of_execution := some 33300,
    x := 33300, y := 35100, current_money := 25000, current_shares := 0,
    days_remaining := 2, stimulate_mode := true,
    stock := "TCS", exchange := "NSE" }

/-- A concrete broker result, for the C9 witness. -/
def sampleOrderResult : OrderResult := { shares_bought := 12, total_amount := 25300 }

/-- C9 witness: the theorem applied at concrete tasks. -/
theorem create_follow_up_task_timestamps_witness :
    create_follow_up_task sampleSellTask sampleOrderResult =
      FollowUpEffect.storeTask
        { execution_detail_id := 3, timestamp_of_execution := none,
          day_of_execution := 739251, current_money := 25300,
          current_shares := 0, order_type := "buy", stimulate_mode := true,
          x := 33300, y := 35100, stock := "TCS", exchange := "NSE",
          days_remaining := 2, previous_task_id := 7 } ∧
    create_follow_up_task sampleBuyTask sampleOrderResult =
      FollowUpEffect.storeTask
        { execution_detail_id := 3, timestamp_of_execution := some 35100,
          day_of_execution := 739251, current_money := 0,
          current_shares := 12, order_type := "sell", stimulate_mode := true,
          x := 33300, y := 35100, stock := "TCS", exchange := "NSE",
          days_remaining := 2, previous_task_id := 8 } :=
  ⟨(create_follow_up_task_timestamps sampleSellTask sampleOrderResult).1
      rfl (by norm_num [sampleSellTask]),
   (create_follow_up_task_timestamps sampleBuyTask sampleOrderResult).2 rfl⟩

/-! ### Execution poller (`strategy_execution_poller.py`) -/

/-- A `strategy_executions` row, restricted to id and status. -/
structure PollerExec where
  id : Int
  status : String
  deriving DecidableEq

/-- `DBClient.change_strategy_execution_run_status(execution_id, status)`:
update by id. -/
def change_strategy_execution_run_status (execs : List PollerExec) (i : Int)
    (st : String) : List PollerExec :=
  execs.map fun e => if e.id = i then { e with status := st } else e

/-- One tick of `strategy_scheduler_poller`: if any execution is `running`,
skip; otherwise take the first `queued` execution, set it `running` and run
`process_strategy_execution_job` on it (which touches only details and tasks);
if the job raises, set the execution `failed`.  `jobSucceeds` abstracts the
outcome of the job call. -/
def strategy_scheduler_poller_tick (execs : List PollerExec)
    (jobSucceeds : Bool) : List PollerExec :=
  if (execs.filter (fun e => e.status == "running")) ≠ [] then execs
  else
    match execs.filter (fun e => e.status == "queued") with
    | [] => execs
    | e :: _ =>
      let s1 := change_strategy_execution_run_status execs e.id "running"
      if jobSucceeds then s1
      else change_strategy_execution_run_status s1 e.id "failed"

/-- Number of executions in `running` status. -/
def countRunning (execs : List PollerExec) : Nat :=
  (execs.filter (fun e => e.status == "running")).length


lemma zip_self_eq {α : Type} :
    ∀ (l : List α) (p : α × α), p ∈ l.zip l → p.1 = p.2 := by
  intro l
  induction l with
  | nil =>
    intro p hp
    simp at hp
  | cons a t ih =>
    intro p hp
    simp only [List.zip_cons_cons] at hp
    rcases List.mem_cons.mp hp with hp | hp
    · rw [hp]
    · exact ih p hp

lemma zip_map_snd {α : Type} (u : α → α) :
    ∀ (l : List α) (p : α × α), p ∈ l.zip (l.map u) → p.2 = u p.1 ∧ p.1 ∈ l := by
  intro l
  induction l with
  | nil =>
    intro p hp
    simp at hp
  | cons a t ih =>
    intro p hp
    simp only [List.map_cons, List.zip_cons_cons] at hp
    rcases List.mem_cons.mp hp with hp | hp
    · rw [hp]
      exact ⟨rfl, List.mem_cons_self a t⟩
    · rcases ih p hp with ⟨h1, h2⟩
      exact ⟨h1, List.mem_cons_of_mem a h2⟩

lemma countP_zip_map_le (u : PollerExec → PollerExec) (i : Int)
    (hu : ∀ x, x.id ≠ i → u x = x) :
    ∀ l : List PollerExec,
      (l.zip (l.map u)).countP (fun p => p.1.status != p.2.status) ≤
        l.countP (fun x => x.id == i) := by
  intro l
  induction l with
  | nil => simp
  | cons a t ih =>
    simp only [List.map_cons, List.zip_cons_cons, List.countP_cons]
    by_cases hid : a.id = i
    · have h1 : (a.id == i) = true := by simp [hid]
      simp only [h1, if_true]
      have h2 : (if (a.status != (u a).status) = true then 1 else 0) ≤ 1 := by
        split <;> omega
      omega
    · have h1 : (a.id == i) = false := by simp [hid]
      have h2 : u a = a := hu a hid
      simp only [h1, if_false, h2, bne_self_eq_false, Bool.false_eq_true]
      omega

lemma countP_id_le_one (l : List PollerExec)
    (hn : (l.map PollerExec.id).Nodup) (i : Int) :
    l.countP (fun x => x.id == i) ≤ 1 := by
  have h1 : l.countP (fun x => x.id == i) =
      (l.map PollerExec.id).countP (fun b => b == i) := by
    rw [List.countP_map]
    rfl
  have h2 : (l.map PollerExec.id).countP (fun b => b == i) =
      (l.map PollerExec.id).count i := rfl
  rw [h1, h2]
  exact List.nodup_iff_count_le_one.mp hn i

lemma nodup_id_eq (l : List PollerExec)
    (hn : (l.map PollerExec.id).Nodup) :
    ∀ a ∈ l, ∀ b ∈ l, a.id = b.id → a = b := by
  intro a ha b hb hab
  exact List.inj_on_of_nodup_map hn ha hb hab

/-- C10: in one poller tick, (a) if any execution is `running` the store is
untouched (no execution is started), (b) at most one execution changes
status, (c) every execution whose status changes was `queued` before the tick
(the only starts are of queued executions), and (d) the invariant "at most one
execution is running" is preserved, whether or not the started job
succeeds. -/
theorem strategy_scheduler_poller_tick_single
    (execs : List PollerExec) (jobSucceeds : Bool)
    (hn : (execs.map PollerExec.id).Nodup) :
    ((∃ e ∈ execs, e.status = "running") →
        strategy_scheduler_poller_tick execs jobSucceeds = execs) ∧
    ((execs.zip (strategy_scheduler_poller_tick execs jobSucceeds)).countP
        (fun p => p.1.status != p.2.status) ≤ 1) ∧
    (∀ p ∈ execs.zip (strategy_scheduler_poller_tick execs jobSucceeds),
        p.1.status ≠ p.2.status → p.1.status = "queued") ∧
    (countRunning execs ≤ 1 →
        countRunning (strategy_scheduler_poller_tick execs jobSucceeds) ≤ 1) := by
  by_cases hrun : (execs.filter (fun e => e.status == "running")) ≠ []
  · have ht : strategy_scheduler_poller_tick execs jobSucceeds = execs := by
      simp only [strategy_scheduler_poller_tick, if_pos hrun]
    rw [ht]
    refine ⟨fun _ => rfl, ?_, ?_, fun h => h⟩
    · have hzero : (execs.zip execs).countP
          (fun p => p.1.status != p.2.status) = 0 := by
        apply List.countP_eq_zero.mpr
        intro p hp
        simp [zip_self_eq execs p hp]
      omega
    · intro p hp hne
      exact absurd (congrArg PollerExec.status (zip_self_eq execs p hp)) hne
  · rw [not_not] at hrun
    have hnone : ∀ x ∈ execs, ¬ (x.status == "running") = true :=
      List.filter_eq_nil_iff.mp hrun
    have hifneg : ¬ (execs.filter (fun e => e.status == "running") ≠ []) :=
      not_not_intro hrun
    rcases hq : execs.filter (fun e => e.status == "queued") with _ | ⟨e, rest⟩
    · have ht : strategy_scheduler_poller_tick execs jobSucceeds = execs := by
        simp only [strategy_scheduler_poller_tick, if_neg hifneg, hq]
      rw [ht]
      refine ⟨fun _ => rfl, ?_, ?_, fun h => h⟩
      · have hzero : (execs.zip execs).countP
            (fun p => p.1.status != p.2.status) = 0 := by
          apply List.countP_eq_zero.mpr
          intro p hp
          simp [zip_self_eq execs p hp]
        omega
      · intro p hp hne
        exact absurd (congrArg PollerExec.status (zip_self_eq execs p hp)) hne
    · have he : e ∈ execs ∧ (e.status == "queued") = true :=
        List.mem_filter.mp (hq ▸ List.mem_cons_self e rest)
      have hestat : e.status = "queued" := by simpa using he.2
      set u : PollerExec → PollerExec := fun x =>
        if jobSucceeds then
          (if x.id = e.id then { x with status := "running" } else x)
        else (if x.id = e.id then { x with status := "failed" } else x) with hu
      have hcomp : strategy_scheduler_poller_tick execs jobSucceeds =
          execs.map u := by
        rcases jobSucceeds with _ | _
        · simp only [strategy_scheduler_poller_tick, if_neg hifneg, hq,
            Bool.false_eq_true, if_false, change_strategy_execution_run_status,
            List.map_map]
          apply List.map_congr_left
          intro a _
          by_cases hid : a.id = e.id <;>
            simp [hid, hu, Function.comp]
        · simp only [strategy_scheduler_poller_tick, if_neg hifneg, hq,
            if_true, change_strategy_execution_run_status]
          apply List.map_congr_left
          intro a _
          by_cases hid : a.id = e.id <;> simp [hid, hu]
      have huid : ∀ x : PollerExec, x.id ≠ e.id → u x = x := by
        intro x hx
        rcases jobSucceeds with _ | _ <;> simp [hu, hx]
      refine ⟨?_, ?_, ?_, ?_⟩
      · rintro ⟨x, hx, hxs⟩
        exact absurd (by simp [hxs] : (x.status == "running") = true)
          (hnone x hx)
      · rw [hcomp]
        calc (execs.zip (execs.map u)).countP
              (fun p => p.1.status != p.2.status)
            ≤ execs.countP (fun x => x.id == e.id) :=
              countP_zip_map_le u e.id huid execs
          _ ≤ 1 := countP_id_le_one execs hn e.id
      · rw [hcomp]
        intro p hp hne
        rcases zip_map_snd u execs p hp with ⟨h2, h1⟩
        by_cases hid : p.1.id = e.id
        · have : p.1 = e := nodup_id_eq execs hn p.1 h1 e he.1 hid
          rw [this, hestat]
        · rw [huid p.1 hid] at h2
          exact absurd (congrArg PollerExec.status h2.symm) hne
      · intro _
        rw [hcomp]
        unfold countRunning
        rw [← List.countP_eq_length_filter, List.countP_map]
        calc execs.countP (fun a => (u a).status == "running")
            ≤ execs.countP (fun a => a.id == e.id) := by
              apply List.countP_mono_left
              intro a ha hstat
              by_cases hid : a.id = e.id
              · simp [hid]
              · rw [huid a hid] at hstat
                exact absurd hstat (hnone a ha)
          _ ≤ 1 := countP_id_le_one execs hn e.id

/-- A concrete store for the C10 witness: one queued and one completed
execution with distinct ids. -/
def samplePollerExecs : List PollerExec :=
  [{ id := 1, status := "completed" }, { id := 2, status := "queued" }]

/-- C10 witness: the theorem applied at a concrete store. -/
theorem strategy_scheduler_poller_tick_single_witness :
    (countRunning samplePollerExecs ≤ 1 →
      countRunning (strategy_scheduler_poller_tick samplePollerExecs true) ≤ 1) ∧
    countRunning (strategy_scheduler_poller_tick samplePollerExecs true) ≤ 1 := by
  have h := strategy_scheduler_poller_tick_single samplePollerExecs true
    (by decide)
  exact ⟨h.2.2.2, h.2.2.2 (by decide)⟩

/-! ### Pattern miner (`find_best_points`, `strategy_config_runner.py`)

`day_data` is the insertion-ordered Python dict *day → (time-of-day → OHLC)*,
embedded as an association list of association lists.  The OHLC fields
`open/high/low/close` are the record fields `op/hi/lo/cl`. -/

/-- One OHLC bar. -/
structure Bar where
  op : ℚ
  hi : ℚ
  lo : ℚ
  cl : ℚ
  deriving DecidableEq

/-- One day of `day_data`: time-of-day string → bar, in insertion order. -/
def DayBars : Type := List (String × Bar)

/-- The whole `day_data` mapping: day string → bars, in insertion order. -/
def DayData : Type := List (String × DayBars)

/-- The ways `find_best_points` can raise. -/
inductive MinerError
  | indexError
  | zeroDivision
  deriving DecidableEq

/-- Dict read `items[t]`.  After the pre-filter every accessed key is present,
so the default bar is never produced (the Python code would raise `KeyError`
otherwise). -/
def lookupBar (items : DayBars) (t : String) : Bar :=
  (items.lookup t).getD { op := 0, hi := 0, lo := 0, cl := 0 }

/-- The source's `x_avg` sample: `(high + open + close) / 3`. -/
def xSample (b : Bar) : ℚ := (b.hi + b.op + b.cl) / 3

/-- The source's `y_avg` sample: `(low + open + close) / 3`. -/
def ySample (b : Bar) : ℚ := (b.lo + b.op + b.cl) / 3

/-- The per-day percentage return of one `(x_avg, y_avg)` pair:
`(y_avg / x_avg - 1) * 100`. -/
def retOf (p : ℚ × ℚ) : ℚ := (p.2 / p.1 - 1) * 100

/-- Time keys of a day. -/
def timeKeys (items : DayBars) : List String := items.map Prod.fst

/-- Python `set(current_time_list) == set(time_points)`. -/
def sameTimeSet (tp : List String) (items : DayBars) : Bool :=
  (timeKeys items).all (fun t => tp.contains t) &&
  tp.all (fun t => (timeKeys items).contains t)

/-- The ordered `(x, y)` index pairs the miner scores: all pairs of indices
into `time_points` whose distance `y - x` is at least `horizontal_gap`
(the Python loop skips the pair when `y - x < horizontal_gap`). -/
def validPairs (n : Nat) (h : ℚ) : List (Nat × Nat) :=
  (List.range n).flatMap (fun x =>
    ((List.range n).filter (fun (y : Nat) => !(((y : ℚ) - (x : ℚ)) < h))).map
      (fun y => (x, y)))

/-- The running state of the sliding-window loop for one `(x, y)` pair. -/
structure PairState where
  window : List (ℚ × ℚ)
  window_sum : ℚ
  exceeded : Nat
  profit_days : Nat
  total_count : Nat
  avg_sum : ℚ
  highest : ℚ
  lowest : ℚ
  record : List ℚ
  deriving DecidableEq

/-- Initial pair state: `_highest = 0`, `_lowest = sys.maxsize` (the 64-bit
value `2^63 - 1`). -/
def initPairState : PairState :=
  { window := [], window_sum := 0, exceeded := 0, profit_days := 0,
    total_count := 0, avg_sum := 0, highest := 0,
    lowest := (9223372036854775807 : ℚ), record := [] }

/-- One day of the sliding-window loop: append the sample pair, add its
return to the rolling sum, and when the window has `continuous_days` entries
record the statistics and evict the oldest entry. -/
def pairStep (v : ℚ) (k : Nat) (st : PairState) (p : ℚ × ℚ) : PairState :=
  let w1 := st.window ++ [p]
  let s1 := st.window_sum + retOf p
  if w1.length = k then
    { window := w1.tail,
      window_sum := s1 - retOf (w1.head?.getD (0, 0)),
      exceeded := st.exceeded + (if s1 > v then 1 else 0),
      profit_days := st.profit_days + (if s1 > 0 then 1 else 0),
      total_count := st.total_count + 1,
      avg_sum := st.avg_sum + s1,
      highest := max st.highest s1,
      lowest := min st.lowest s1,
      record := st.record ++ [s1] }
  else { st with window := w1, window_sum := s1 }

/-- One score record of the miner output. -/
structure Score where
  exceed_prob : ℚ
  profit_prob : ℚ
  exceeded : Nat
  profit_days : Nat
  average : ℚ
  total_count : Nat
  p5 : ℚ
  p10 : ℚ
  p20 : ℚ
  p40 : ℚ
  p50 : ℚ
  x : String
  y : String
  highest : ℚ
  lowest : ℚ
  deriving DecidableEq

/-- Ascending insertion sort of rationals, for Python `sorted(_record)`. -/
def insertAscQ (a : ℚ) : List ℚ → List ℚ
  | [] => [a]
  | b :: l => if a ≤ b then a :: b :: l else b :: insertAscQ a l

/-- Python `sorted` on a list of rationals. -/
def sortAscQ : List ℚ → List ℚ
  | [] => []
  | a :: l => insertAscQ a (sortAscQ l)

/-- Score of a single `(x, y)` pair over the accepted days' sample pairs.
`Except.error` models the Python exceptions: `IndexError` on
`continuous_days = 0` (an empty `deque(maxlen=0)` makes `window[-1]` fail on
the first day) and `ZeroDivisionError` when no full window was seen
(`exceeded / total_count` with `total_count = 0`).  The percentile indices
are `int(p * len(record))`. -/
def pairScore (v : ℚ) (k : Nat) (x y : String) (samples : List (ℚ × ℚ)) :
    Except MinerError Score :=
  if k = 0 then Except.error MinerError.indexError
  else
    let st := samples.foldl (pairStep v k) initPairState
    if st.total_count = 0 then Except.error MinerError.zeroDivision
    else
      let n := st.record.length
      let sortedRec := sortAscQ st.record
      Except.ok
        { exceed_prob := (st.exceeded : ℚ) / (st.total_count : ℚ),
          profit_prob := (st.profit_days : ℚ) / (st.total_count : ℚ),
          exceeded := st.exceeded,
          profit_days := st.profit_days,
          average := st.avg_sum / (st.total_count : ℚ),
          total_count := st.total_count,
          p5 := sortedRec.getD (5 * n / 100) 0,
          p10 := sortedRec.getD (10 * n / 100) 0,
          p20 := sortedRec.getD (20 * n / 100) 0,
          p40 := sortedRec.getD (40 * n / 100) 0,
          p50 := sortedRec.getD (50 * n / 100) 0,
          x := x, y := y,
          highest := st.highest, lowest := st.lowest }

/-- The pair loop of `find_best_points` with its exception flow: score the
pairs left to right, aborting at the first raised exception. -/
def mapExcept {α β : Type} (f : α → Except MinerError β) :
    List α → Except MinerError (List β)
  | [] => Except.ok []
  | a :: l =>
    match f a with
    | Except.error e => Except.error e
    | Except.ok b =>
      match mapExcept f l with
      | Except.error e => Except.error e
      | Except.ok bs => Except.ok (b :: bs)

/-- Stable insert for a descending sort with a strict-less test: an element
moves past `b` only when strictly smaller, so equal keys keep their original
order, exactly like Python's stable `list.sort(key=..., reverse=True)`. -/
def insertByLt {α : Type} (lt : α → α → Bool) (a : α) : List α → List α
  | [] => [a]
  | b :: l => if lt a b then b :: insertByLt lt a l else a :: b :: l

/-- Stable descending sort by a strict-less test. -/
def sortByLtDesc {α : Type} (lt : α → α → Bool) : List α → List α
  | [] => []
  | a :: l => insertByLt lt a (sortByLtDesc lt l)

/-- Strict less-than on the sort key `(exceeded, average)` of a score. -/
def scoreKeyLt (a b : Score) : Bool :=
  a.exceeded < b.exceeded || (a.exceeded == b.exceeded && a.average < b.average)

/-- `find_best_points(day_data, vertical_gap, horizontal_gap,
continuous_days)`: take the time points of the first day (IndexError when the
mapping is empty), drop days whose time-point set differs, score every valid
`(x, y)` pair with the sliding-window loop, and sort the scores descending by
`(exceeded, average)`. -/
def find_best_points (day_data : DayData) (vertical_gap : ℚ)
    (horizontal_gap : ℚ) (continuous_days : Nat) :
    Except MinerError (List Score) :=
  match day_data with
  | [] => Except.error MinerError.indexError
  | day0 :: _ =>
    let time_points := timeKeys day0.2
    let accepted := day_data.filter (fun d => sameTimeSet time_points d.2)
    (mapExcept (fun ij =>
        pairScore vertical_gap continuous_days
          (time_points.getD ij.1 "") (time_points.getD ij.2 "")
          (accepted.map (fun d =>
            (xSample (lookupBar d.2 (time_points.getD ij.1 "")),
             ySample (lookupBar d.2 (time_points.getD ij.2 ""))))))
      (validPairs time_points.length horizontal_gap)).map
      (sortByLtDesc scoreKeyLt)

/-! ### Spec-side recomputation for the miner (claim P5) -/

/-- Modelled from the spec: the rolling sums of all full `k`-day windows of a
return series, one per window start, in order. -/
def windowSums (k : Nat) : List ℚ → List ℚ
  | [] => []
  | r :: rs =>
    if k ≤ (r :: rs).length then ((r :: rs).take k).sum :: windowSums k rs
    else []

/-- The fields of a score record that claim C1 talks about. -/
structure ScoreStats where
  exceeded : Nat
  profit_days : Nat
  total_count : Nat
  exceed_prob : ℚ
  x : String
  y : String
  deriving DecidableEq

/-- Projection of a miner score onto the claimed fields. -/
def Score.stats (s : Score) : ScoreStats :=
  { exceeded := s.exceeded, profit_days := s.profit_days,
    total_count := s.total_count, exceed_prob := s.exceed_prob,
    x := s.x, y := s.y }

/-- Modelled from the spec: independent re-computation of the claimed fields
for one pair: `exceeded` counts the full windows whose rolling sum strictly
exceeds `v`, `profit_days` those with positive sum, `total_count` is the
number of full windows, and `exceed_prob = exceeded / total_count`. -/
def specPairStats (v : ℚ) (k : Nat) (x y : String) (rets : List ℚ) :
    ScoreStats :=
  let ws := windowSums k rets
  { exceeded := ws.countP (fun s => v < s),
    profit_days := ws.countP (fun s => 0 < s),
    total_count := ws.length,
    exceed_prob := (ws.countP (fun s => v < s) : ℚ) / (ws.length : ℚ),
    x := x, y := y }

/-- The per-day returns of a pair of time points over the accepted days,
with the code's price samples. -/
def specReturns (accepted : DayData) (tx ty : String) : List ℚ :=
  accepted.map (fun d =>
    retOf (xSample (lookupBar d.2 tx), ySample (lookupBar d.2 ty)))

/-- Modelled from the spec: the expected claimed fields of the miner output,
one record per valid ordered pair. -/
def minerSpecStats (day_data : DayData) (v h : ℚ) (k : Nat) :
    List ScoreStats :=
  match day_data with
  | [] => []
  | day0 :: _ =>
    let tp := timeKeys day0.2
    let accepted := day_data.filter (fun d => sameTimeSet tp d.2)
    (validPairs tp.length h).map (fun ij =>
      specPairStats v k (tp.getD ij.1 "") (tp.getD ij.2 "")
        (specReturns accepted (tp.getD ij.1 "") (tp.getD ij.2 "")))

lemma windowSums_short (k : Nat) :
    ∀ rs : List ℚ, rs.length < k → windowSums k rs = [] := by
  intro rs h
  cases rs with
  | nil => rfl
  | cons r t =>
    rw [windowSums, if_neg (by simpa using Nat.not_le_of_lt h)]

lemma windowSums_snoc (k : Nat) (hk : 1 ≤ k) :
    ∀ (rs : List ℚ) (r : ℚ),
    windowSums k (rs ++ [r]) = windowSums k rs ++
      (if k ≤ rs.length + 1 then
        [((rs ++ [r]).drop (rs.length + 1 - k)).sum] else []) := by
  intro rs
  induction rs with
  | nil =>
    intro r
    by_cases h : k ≤ 1
    · have hke : k = 1 := by omega
      subst hke
      simp [windowSums]
    · have hc1 : ([r] : List ℚ).length < k := by
        simp only [List.length_cons, List.length_nil]
        omega
      have hc2 : ¬ k ≤ List.length ([] : List ℚ) + 1 := by
        simp only [List.length_nil]
        omega
      simp only [List.nil_append]
      rw [windowSums_short k [r] hc1, if_neg hc2]
      rfl
  | cons a t ih =>
    intro r
    show windowSums k (a :: (t ++ [r])) = _
    by_cases h1 : k ≤ t.length + 1
    · have hlen2 : k ≤ (a :: (t ++ [r])).length := by
        simp only [List.length_cons, List.length_append, List.length_nil]
        omega
      have hlen1 : k ≤ (a :: t).length := by
        simp only [List.length_cons]
        omega
      have hout : k ≤ (a :: t).length + 1 := by
        simp only [List.length_cons]
        omega
      have htake : ((a :: (t ++ [r])).take k).sum = ((a :: t).take k).sum := by
        have hsh : a :: (t ++ [r]) = (a :: t) ++ [r] := by simp
        have hle : k ≤ (a :: t).length := hlen1
        rw [hsh, List.take_append_of_le_length hle]
      have hdrop : ((a :: t ++ [r]).drop ((a :: t).length + 1 - k)).sum =
          ((t ++ [r]).drop (t.length + 1 - k)).sum := by
        have hm : (a :: t).length + 1 - k = (t.length + 1 - k) + 1 := by
          simp only [List.length_cons]
          omega
        rw [hm]
        rw [List.cons_append, List.drop_succ_cons]
      simp only [windowSums]
      rw [if_pos hlen2, if_pos hlen1, ih r, if_pos h1, if_pos hout]
      rw [htake, hdrop]
      simp
    · by_cases h2 : k ≤ t.length + 2
      · have hlen2 : k ≤ (a :: (t ++ [r])).length := by
          simp only [List.length_cons, List.length_append, List.length_nil]
          omega
        have hshort1 : (t ++ [r]).length < k := by
          simp only [List.length_append, List.length_cons, List.length_nil]
          omega
        have hneg1 : ¬ k ≤ (a :: t).length := by
          simp only [List.length_cons]
          omega
        have hpos1 : k ≤ (a :: t).length + 1 := by
          simp only [List.length_cons]
          omega
        have hdrop0 : (a :: t).length + 1 - k = 0 := by
          simp only [List.length_cons]
          omega
        have htlen : (a :: (t ++ [r])).length ≤ k := by
          simp only [List.length_cons, List.length_append, List.length_nil]
          omega
        simp only [windowSums]
        rw [if_pos hlen2, windowSums_short k (t ++ [r]) hshort1,
          if_neg hneg1, if_pos hpos1, hdrop0, List.drop_zero,
          List.take_of_length_le htlen]
        simp
      · have hshortL : (a :: (t ++ [r])).length < k := by
          simp only [List.length_cons, List.length_append, List.length_nil]
          omega
        have hshortR : (a :: t).length < k := by
          simp only [List.length_cons]
          omega
        have hneg : ¬ k ≤ (a :: t).length + 1 := by
          simp only [List.length_cons]
          omega
        rw [windowSums_short k (a :: (t ++ [r])) hshortL,
          windowSums_short k (a :: t) hshortR, if_neg hneg]
        rfl

lemma pairFold_spec (v : ℚ) (k : Nat) (hk : 1 ≤ k) :
    ∀ ps : List (ℚ × ℚ),
      (ps.foldl (pairStep v k) initPairState).window =
          ps.drop (ps.length + 1 - k) ∧
      (ps.foldl (pairStep v k) initPairState).window_sum =
          ((ps.drop (ps.length + 1 - k)).map retOf).sum ∧
      (ps.foldl (pairStep v k) initPairState).record =
          windowSums k (ps.map retOf) ∧
      (ps.foldl (pairStep v k) initPairState).total_count =
          (windowSums k (ps.map retOf)).length ∧
      (ps.foldl (pairStep v k) initPairState).exceeded =
          (windowSums k (ps.map retOf)).countP (fun s => v < s) ∧
      (ps.foldl (pairStep v k) initPairState).profit_days =
          (windowSums k (ps.map retOf)).countP (fun s => 0 < s) := by
  intro ps
  induction ps using List.reverseRecOn with
  | nil => simp [initPairState, windowSums]
  | append_singleton ps p ih =>
    obtain ⟨ih1, ih2, ih3, ih4, ih5, ih6⟩ := ih
    set st := ps.foldl (pairStep v k) initPairState with hst
    have hfold : (ps ++ [p]).foldl (pairStep v k) initPairState =
        pairStep v k st p := by
      rw [List.foldl_append]
      rfl
    set n := ps.length with hn
    by_cases h1 : k ≤ n + 1
    · -- the window is full after this day
      have hwlen : st.window.length = k - 1 := by
        rw [ih1, List.length_drop]
        omega
      have hcond : (st.window ++ [p]).length = k := by
        rw [List.length_append, hwlen]
        simp only [List.length_cons, List.length_nil]
        omega
      have hw1 : st.window ++ [p] = (ps ++ [p]).drop (n + 1 - k) := by
        rw [ih1, List.drop_append_of_le_length (by omega)]
      have hs1 : st.window_sum + retOf p =
          (((ps ++ [p]).drop (n + 1 - k)).map retOf).sum := by
        rw [ih2, List.drop_append_of_le_length (by omega : n + 1 - k ≤ ps.length),
          List.map_append, List.sum_append]
        simp
      have hstep : pairStep v k st p =
          { window := (st.window ++ [p]).tail,
            window_sum := (st.window_sum + retOf p) -
              retOf ((st.window ++ [p]).head?.getD (0, 0)),
            exceeded := st.exceeded +
              (if st.window_sum + retOf p > v then 1 else 0),
            profit_days := st.profit_days +
              (if st.window_sum + retOf p > 0 then 1 else 0),
            total_count := st.total_count + 1,
            avg_sum := st.avg_sum + (st.window_sum + retOf p),
            highest := max st.highest (st.window_sum + retOf p),
            lowest := min st.lowest (st.window_sum + retOf p),
            record := st.record ++ [st.window_sum + retOf p] } := by
        rw [pairStep]
        simp only [if_pos hcond]
      have hsnoc := windowSums_snoc k hk (ps.map retOf) (retOf p)
      have hmaplen : (ps.map retOf).length = n := by
        rw [List.length_map]
      have hposif : k ≤ (ps.map retOf).length + 1 := by omega
      have hdropmap : (ps.map retOf ++ [retOf p]).drop
            ((ps.map retOf).length + 1 - k) =
          (((ps ++ [p]).drop (n + 1 - k)).map retOf) := by
        rw [hmaplen]
        show (List.map retOf ps ++ List.map retOf [p]).drop (n + 1 - k) = _
        rw [← List.map_append]
        rw [List.map_drop]
      have hsnoc2 : windowSums k ((ps ++ [p]).map retOf) =
          windowSums k (ps.map retOf) ++
            [(((ps ++ [p]).drop (n + 1 - k)).map retOf).sum] := by
        rw [List.map_append]
        show windowSums k (ps.map retOf ++ [retOf p]) = _
        rw [hsnoc, if_pos hposif, hdropmap]
      rw [hfold, hstep]
      rcases hww : st.window ++ [p] with _ | ⟨q, wrest⟩
      · exact absurd hww (by simp)
      · have hq : ((st.window ++ [p]).head?.getD (0, 0)) = q := by
          rw [hww]
          rfl
        have htail : (st.window ++ [p]).tail = wrest := by
          rw [hww, List.tail_cons]
        have hwrest : wrest = (ps ++ [p]).drop (n + 1 + 1 - k) := by
          have : (st.window ++ [p]).tail = ((ps ++ [p]).drop (n + 1 - k)).tail := by
            rw [hw1]
          rw [htail] at this
          rw [this, List.tail_drop]
          congr 1
          omega
        have hsum_split : (((ps ++ [p]).drop (n + 1 - k)).map retOf).sum =
            retOf q + ((wrest.map retOf).sum) := by
          rw [← hw1, hww]
          simp
        have hlenps : (ps ++ [p]).length = n + 1 := by
          simp
        rw [hww] at htail hq
        refine ⟨?_, ?_, ?_, ?_, ?_, ?_⟩
        · rw [hlenps, htail, hwrest]
        · rw [hlenps, hq, hs1, hsum_split, ← hwrest]
          ring
        · rw [hs1, hsnoc2, ih3]
        · rw [hsnoc2, ih4, List.length_append]
          simp
        · rw [hsnoc2, ih5, List.countP_append, hs1]
          rw [List.countP_cons]
          simp [gt_iff_lt]
        · rw [hsnoc2, ih6, List.countP_append, hs1]
          rw [List.countP_cons]
          simp [gt_iff_lt]
    · -- the window is still growing
      have hdrop0 : n + 1 - k = 0 := by omega
      have hdrop0' : n + 1 + 1 - k = 0 := by omega
      have hwlen : st.window.length = n := by
        rw [ih1, hdrop0, List.drop_zero]
      have hcond : ¬ ((st.window ++ [p]).length = k) := by
        rw [List.length_append, hwlen]
        simp only [List.length_cons, List.length_nil]
        omega
      have hstep : pairStep v k st p =
          { st with window := st.window ++ [p],
                    window_sum := st.window_sum + retOf p } := by
        rw [pairStep]
        simp only [if_neg hcond]
      have hsnoc := windowSums_snoc k hk (ps.map retOf) (retOf p)
      have hmaplen : (ps.map retOf).length = n := by
        rw [List.length_map]
      have hnegif : ¬ (k ≤ (ps.map retOf).length + 1) := by omega
      have hsnoc2 : windowSums k ((ps ++ [p]).map retOf) =
          windowSums k (ps.map retOf) := by
        rw [List.map_append]
        show windowSums k (ps.map retOf ++ [retOf p]) = _
        rw [hsnoc, if_neg hnegif, List.append_nil]
      have hlenps : (ps ++ [p]).length = n + 1 := by
        simp
      rw [hfold, hstep]
      refine ⟨?_, ?_, ?_, ?_, ?_, ?_⟩
      · rw [hlenps, ih1, hdrop0, List.drop_zero, hdrop0', List.drop_zero]
      · rw [hlenps, ih2, hdrop0, List.drop_zero, hdrop0', List.drop_zero]
        simp
      · rw [hsnoc2, ih3]
      · rw [hsnoc2, ih4]
      · rw [hsnoc2, ih5]
      · rw [hsnoc2, ih6]

lemma pairScore_ok_stats (v : ℚ) (k : Nat) (x y : String)
    (samples : List (ℚ × ℚ)) (sc : Score)
    (h : pairScore v k x y samples = Except.ok sc) :
    sc.stats = specPairStats v k x y (samples.map retOf) := by
  unfold pairScore at h
  by_cases hk : k = 0
  · rw [if_pos hk] at h
    exact absurd h (by simp)
  · rw [if_neg hk] at h
    obtain ⟨s1, s2, s3, s4, s5, s6⟩ := pairFold_spec v k (by omega) samples
    by_cases ht : (samples.foldl (pairStep v k) initPairState).total_count = 0
    · rw [if_pos ht] at h
      exact absurd h (by simp)
    · rw [if_neg ht] at h
      injection h with h2
      rw [← h2]
      unfold Score.stats specPairStats
      simp only []
      rw [s4, s5, s6]
  
lemma pairScore_ok_prob (v : ℚ) (k : Nat) (x y : String)
    (samples : List (ℚ × ℚ)) (sc : Score)
    (h : pairScore v k x y samples = Except.ok sc) :
    sc.exceed_prob = (sc.exceeded : ℚ) / (sc.total_count : ℚ) := by
  unfold pairScore at h
  by_cases hk : k = 0
  · rw [if_pos hk] at h
    exact absurd h (by simp)
  · rw [if_neg hk] at h
    by_cases ht : (samples.foldl (pairStep v k) initPairState).total_count = 0
    · rw [if_pos ht] at h
      exact absurd h (by simp)
    · rw [if_neg ht] at h
      injection h with h2
      rw [← h2]

lemma pairScore_short_err (v : ℚ) (k : Nat) (hk : 1 ≤ k) (x y : String)
    (samples : List (ℚ × ℚ)) (hshort : samples.length < k) :
    pairScore v k x y samples = Except.error MinerError.zeroDivision := by
  unfold pairScore
  rw [if_neg (by omega)]
  obtain ⟨s1, s2, s3, s4, s5, s6⟩ := pairFold_spec v k hk samples
  have hws : windowSums k (samples.map retOf) = [] :=
    windowSums_short k (samples.map retOf) (by rw [List.length_map]; exact hshort)
  have ht : (samples.foldl (pairStep v k) initPairState).total_count = 0 := by
    rw [s4, hws]
    rfl
  rw [if_pos ht]

lemma mapExcept_ok_map {α β γ : Type} (f : α → Except MinerError β)
    (g : β → γ) (hmap : α → γ)
    (hpt : ∀ a b, f a = Except.ok b → g b = hmap a) :
    ∀ (l : List α) (ys : List β), mapExcept f l = Except.ok ys →
      ys.map g = l.map hmap := by
  intro l
  induction l with
  | nil =>
    intro ys hys
    unfold mapExcept at hys
    injection hys with h2
    rw [← h2]
    rfl
  | cons a t ih =>
    intro ys hys
    unfold mapExcept at hys
    rcases hfa : f a with e | b
    · rw [hfa] at hys
      exact absurd hys (by simp)
    · rw [hfa] at hys
      rcases hrec : mapExcept f t with e | bs
      · rw [hrec] at hys
        exact absurd hys (by simp)
      · rw [hrec] at hys
        injection hys with h2
        rw [← h2]
        simp only [List.map_cons]
        rw [hpt a b hfa, ih bs hrec]

lemma mapExcept_ok_mem {α β : Type} (f : α → Except MinerError β) :
    ∀ (l : List α) (ys : List β), mapExcept f l = Except.ok ys →
      ∀ b ∈ ys, ∃ a ∈ l, f a = Except.ok b := by
  intro l
  induction l with
  | nil =>
    intro ys hys b hb
    unfold mapExcept at hys
    injection hys with h2
    rw [← h2] at hb
    simp at hb
  | cons a t ih =>
    intro ys hys b hb
    unfold mapExcept at hys
    rcases hfa : f a with e | b0
    · rw [hfa] at hys
      exact absurd hys (by simp)
    · rw [hfa] at hys
      rcases hrec : mapExcept f t with e | bs
      · rw [hrec] at hys
        exact absurd hys (by simp)
      · rw [hrec] at hys
        injection hys with h2
        rw [← h2] at hb
        rcases List.mem_cons.mp hb with hb | hb
        · exact ⟨a, List.mem_cons_self a t, by rw [hfa, hb]⟩
        · rcases ih bs hrec b hb with ⟨a2, ha2, hfa2⟩
          exact ⟨a2, List.mem_cons_of_mem a ha2, hfa2⟩

lemma mapExcept_err_head {α β : Type} (f : α → Except MinerError β)
    (a : α) (l : List α) (e : MinerError) (hfa : f a = Except.error e) :
    mapExcept f (a :: l) = Except.error e := by
  unfold mapExcept
  rw [hfa]

lemma insertByLt_perm {α : Type} (lt : α → α → Bool) (a : α) :
    ∀ l : List α, (insertByLt lt a l).Perm (a :: l) := by
  intro l
  induction l with
  | nil => rfl
  | cons b t ih =>
    rw [insertByLt]
    by_cases hlt : lt a b
    · rw [if_pos hlt]
      exact List.Perm.trans (ih.cons b) (List.Perm.swap a b t)
    · rw [if_neg hlt]

lemma sortByLtDesc_perm {α : Type} (lt : α → α → Bool) :
    ∀ l : List α, (sortByLtDesc lt l).Perm l := by
  intro l
  induction l with
  | nil => rfl
  | cons a t ih =>
    rw [sortByLtDesc]
    exact List.Perm.trans (insertByLt_perm lt a (sortByLtDesc lt t))
      (ih.cons a)

/-- C1: whenever `find_best_points` returns a result list, the claimed
fields of the result are, up to the output sort (a permutation), exactly one
record per valid ordered pair `(x, y)` with index distance at least `h`, and
on that record `exceeded` counts the full `continuous_days`-windows of
accepted days whose rolling sum of per-day percentage returns (with the
code's price samples) strictly exceeds `v`, `profit_days` counts those with
positive sum, `total_count` is the number of full windows, and
`exceed_prob = exceeded / total_count` (also stated directly for every
returned record). -/
theorem find_best_points_window_counts (day_data : DayData) (v h : ℚ)
    (k : Nat) (scores : List Score)
    (hok : find_best_points day_data v h k = Except.ok scores) :
    ((scores.map Score.stats).Perm (minerSpecStats day_data v h k)) ∧
    (∀ s ∈ scores, s.exceed_prob = (s.exceeded : ℚ) / (s.total_count : ℚ)) := by
  cases day_data with
  | nil => exact absurd hok (by simp [find_best_points])
  | cons day0 rest =>
    rw [show find_best_points (day0 :: rest) v h k =
        (mapExcept (fun ij =>
          pairScore v k ((timeKeys day0.2).getD ij.1 "")
            ((timeKeys day0.2).getD ij.2 "")
            (((day0 :: rest).filter
                (fun d => sameTimeSet (timeKeys day0.2) d.2)).map (fun d =>
              (xSample (lookupBar d.2 ((timeKeys day0.2).getD ij.1 "")),
               ySample (lookupBar d.2 ((timeKeys day0.2).getD ij.2 ""))))))
          (validPairs (timeKeys day0.2).length h)).map
          (sortByLtDesc scoreKeyLt) from rfl] at hok
    rcases hbase : mapExcept (fun ij =>
        pairScore v k ((timeKeys day0.2).getD ij.1 "")
          ((timeKeys day0.2).getD ij.2 "")
          (((day0 :: rest).filter
              (fun d => sameTimeSet (timeKeys day0.2) d.2)).map (fun d =>
            (xSample (lookupBar d.2 ((timeKeys day0.2).getD ij.1 "")),
             ySample (lookupBar d.2 ((timeKeys day0.2).getD ij.2 ""))))))
        (validPairs (timeKeys day0.2).length h) with e | base
    · rw [hbase] at hok
      exact absurd hok (by simp [Except.map])
    · rw [hbase] at hok
      have hscores : scores = sortByLtDesc scoreKeyLt base := by
        have h2 : Except.ok (sortByLtDesc scoreKeyLt base) =
            (Except.ok scores : Except MinerError (List Score)) := by
          simpa [Except.map] using hok
        injection h2 with h3
        rw [h3]
      have hperm : (scores.map Score.stats).Perm (base.map Score.stats) := by
        rw [hscores]
        exact (sortByLtDesc_perm scoreKeyLt base).map Score.stats
      have hbasemap : base.map Score.stats =
          (validPairs (timeKeys day0.2).length h).map (fun ij =>
            specPairStats v k ((timeKeys day0.2).getD ij.1 "")
              ((timeKeys day0.2).getD ij.2 "")
              (specReturns ((day0 :: rest).filter
                  (fun d => sameTimeSet (timeKeys day0.2) d.2))
                ((timeKeys day0.2).getD ij.1 "")
                ((timeKeys day0.2).getD ij.2 ""))) := by
        apply mapExcept_ok_map _ _ _ _ _ _ hbase
        intro ij sc hsc
        rw [pairScore_ok_stats _ _ _ _ _ _ hsc]
        unfold specReturns
        rw [List.map_map]
        rfl
      have hspec : minerSpecStats (day0 :: rest) v h k =
          (validPairs (timeKeys day0.2).length h).map (fun ij =>
            specPairStats v k ((timeKeys day0.2).getD ij.1 "")
              ((timeKeys day0.2).getD ij.2 "")
              (specReturns ((day0 :: rest).filter
                  (fun d => sameTimeSet (timeKeys day0.2) d.2))
                ((timeKeys day0.2).getD ij.1 "")
                ((timeKeys day0.2).getD ij.2 ""))) := rfl
      refine ⟨by rw [hspec, ← hbasemap]; exact hperm, ?_⟩
      intro s hs
      have hsmem : s ∈ base := by
        rw [hscores] at hs
        exact (sortByLtDesc_perm scoreKeyLt base).subset hs
      rcases mapExcept_ok_mem _ _ _ hbase s hsmem with ⟨ij, _, hfa⟩
      exact pairScore_ok_prob _ _ _ _ _ _ hfa

/-- Concrete two-day bar mapping for the C1 witness. -/
def sampleDayData : DayData :=
  [("d1", [("t0", { op := 3, hi := 3, lo := 3, cl := 3 }),
           ("t1", { op := 6, hi := 6, lo := 6, cl := 6 })]),
   ("d2", [("t0", { op := 3, hi := 3, lo := 3, cl := 3 }),
           ("t1", { op := 9, hi := 9, lo := 9, cl := 9 })])]

/-- The miner output on `sampleDayData` with `v = 0`, `h = 1`, `k = 1`. -/
def sampleScores : List Score :=
  [{ exceed_prob := 1, profit_prob := 1, exceeded := 2, profit_days := 2,
     average := 150, total_count := 2, p5 := 100, p10 := 100, p20 := 100,
     p40 := 100, p50 := 200, x := "t0", y := "t1",
     highest := 200, lowest := 100 }]

set_option maxHeartbeats 2000000 in
lemma sample_find_best_points :
    find_best_points sampleDayData 0 1 1 = Except.ok sampleScores := by
  have hne : ("t1" == "t0") = false := by decide
  norm_num [find_best_points, sampleDayData, sampleScores, timeKeys,
    sameTimeSet, validPairs, List.range_succ, mapExcept, pairScore, pairStep,
    initPairState, sortByLtDesc, insertByLt, sortAscQ, insertAscQ, lookupBar,
    List.lookup, xSample, ySample, retOf, scoreKeyLt, Except.map, hne]

/-- C1 witness: the theorem applied to a concrete bar mapping. -/
theorem find_best_points_window_counts_witness :
    ((sampleScores.map Score.stats).Perm (minerSpecStats sampleDayData 0 1 1)) ∧
    (∀ s ∈ sampleScores,
        s.exceed_prob = (s.exceeded : ℚ) / (s.total_count : ℚ)) :=
  find_best_points_window_counts sampleDayData 0 1 1 sampleScores
    sample_find_best_points

/-! ### Vertical-gap binary search and candidate selection
(`process_strategy_scheduler_job`, `strategy_config_runner.py`)

`find_best_points_for_symbol` re-syncs and re-reads bars from the database
and then calls `find_best_points`, so for a fixed bar store it is a function
of the gaps alone.  The wrapper is therefore embedded against a
`MinerOracle`: the outcome of one such call at a given vertical gap — an
exception, an empty point list, or the top point's
`(exceed_prob, average)`. -/

/-- Outcome of one `find_best_points_for_symbol` call at a vertical gap. -/
def MinerOracle : Type := ℚ → Except Unit (Option (ℚ × ℚ))

/-- A candidate point as decorated by `decorate_points`: the top score's
`exceed_prob` and `average` plus the configuration that produced it. -/
structure CandidatePoint where
  exceed_prob : ℚ
  average : ℚ
  vertical_gap : ℚ
  horizontal_gap : ℚ
  deriving DecidableEq

/-- State of the `while r_vgap - l_vgap > 0.1 and max_itr > 0` loop. -/
structure BSearchState where
  l_vgap : ℚ
  r_vgap : ℚ
  max_itr : Int
  best_valid_point : Option CandidatePoint
  deriving DecidableEq

/-- The body of one binary-search iteration for horizontal gap `h`:
evaluate the miner at the midpoint; an exception or an empty result only
decrements `max_itr`; a top point is recorded as `best_valid_point` when its
`exceed_prob` is at least the threshold 0.8 (and the left bound moves up),
otherwise the right bound moves down. -/
def bsearchNext (mine : MinerOracle) (h : ℚ) (s : BSearchState) :
    BSearchState :=
  let v := (s.l_vgap + s.r_vgap) / 2
  match mine v with
  | Except.error _ => { s with max_itr := s.max_itr - 1 }
  | Except.ok none => { s with max_itr := s.max_itr - 1 }
  | Except.ok (some p) =>
    if p.1 ≥ 8/10 then
      { l_vgap := v, r_vgap := s.r_vgap, max_itr := s.max_itr - 1,
        best_valid_point := some
          { exceed_prob := p.1, average := p.2, vertical_gap := v,
            horizontal_gap := h } }
    else
      { l_vgap := s.l_vgap, r_vgap := v, max_itr := s.max_itr - 1,
        best_valid_point := s.best_valid_point }

/-- The `while r_vgap - l_vgap > 0.1 and max_itr > 0` loop, with fuel.  The
body decrements `max_itr` on every path, so 100 units of fuel — the initial
`max_itr` — always outlast the guard and the fuel case is never the reason
the loop stops. -/
def bsearchLoop (mine : MinerOracle) (h : ℚ) :
    Nat → BSearchState → BSearchState
  | 0, s => s
  | fuel + 1, s =>
    if s.r_vgap - s.l_vgap > 1/10 ∧ s.max_itr > 0 then
      bsearchLoop mine h fuel (bsearchNext mine h s)
    else s

/-- The `best_valid_point` left by the full binary search over
`v ∈ [0, 200]` with `max_itr = 100`. -/
def bsearchBestValid (mine : MinerOracle) (h : ℚ) : Option CandidatePoint :=
  (bsearchLoop mine h 100
    { l_vgap := 0, r_vgap := 200, max_itr := 100,
      best_valid_point := none }).best_valid_point

/-- The `candidate_points` list gathered for one `(symbol, continuous_days)`:
one successful binary-search result per horizontal gap, in order. -/
def candidatesForCDays (mine : ℚ → MinerOracle) (hs : List ℚ) :
    List CandidatePoint :=
  hs.filterMap (fun h => bsearchBestValid (mine h) h)

/-- Strict less-than on the candidate sort key `(exceed_prob, average)`. -/
def candKeyLt (a b : CandidatePoint) : Bool :=
  a.exceed_prob < b.exceed_prob ||
    (a.exceed_prob == b.exceed_prob && a.average < b.average)

/-- What one `(symbol, continuous_days)` round contributes to `master_data`:
the candidates sorted descending by `(exceed_prob, average)` (stable) and cut
to `candidate_points[:1]`. -/
def keptCandidate (mine : ℚ → MinerOracle) (hs : List ℚ) :
    List CandidatePoint :=
  (sortByLtDesc candKeyLt (candidatesForCDays mine hs)).take 1

lemma candKeyLt_irrefl (a : CandidatePoint) : candKeyLt a a = false := by
  simp [candKeyLt]

lemma candKeyLt_asymm (a b : CandidatePoint)
    (h : candKeyLt a b = true) : candKeyLt b a = false := by
  simp only [candKeyLt, Bool.or_eq_true, Bool.and_eq_true, beq_iff_eq,
    decide_eq_true_eq] at h
  simp only [candKeyLt, Bool.or_eq_false_iff, Bool.and_eq_false_iff,
    beq_eq_false_iff_ne, ne_eq, decide_eq_false_iff_not, not_lt]
  rcases h with h | ⟨h1, h2⟩
  · constructor
    · linarith
    · left
      intro he
      linarith
  · constructor
    · linarith
    · right
      linarith

lemma candKeyLt_neg_trans (a c d : CandidatePoint)
    (h1 : candKeyLt a c = false) (h2 : candKeyLt c d = false) :
    candKeyLt a d = false := by
  simp only [candKeyLt, Bool.or_eq_false_iff, Bool.and_eq_false_iff,
    beq_eq_false_iff_ne, ne_eq, decide_eq_false_iff_not, not_lt] at h1 h2 ⊢
  obtain ⟨h1a, h1b⟩ := h1
  obtain ⟨h2a, h2b⟩ := h2
  constructor
  · linarith
  · rcases h1b with h1b | h1b
    · left
      intro he
      apply h1b
      have : d.exceed_prob ≤ c.exceed_prob := h2a
      have : c.exceed_prob ≤ a.exceed_prob := h1a
      linarith
    · rcases h2b with h2b | h2b
      · left
        intro he
        apply h2b
        linarith
      · right
        linarith

lemma sortDesc_head_max :
    ∀ l : List CandidatePoint, l ≠ [] →
    ∃ c r, sortByLtDesc candKeyLt l = c :: r ∧ c ∈ l ∧
      ∀ d ∈ l, candKeyLt c d = false := by
  intro l
  induction l with
  | nil => intro hne; exact absurd rfl hne
  | cons a t ih =>
    intro _
    cases t with
    | nil =>
      refine ⟨a, [], rfl, List.mem_singleton_self a, ?_⟩
      intro d hd
      rw [List.mem_singleton.mp hd]
      exact candKeyLt_irrefl a
    | cons b t2 =>
      rcases ih (by simp) with ⟨c, r, hsort, hcmem, hcmax⟩
      rw [sortByLtDesc, hsort, insertByLt]
      by_cases hlt : candKeyLt a c = true
      · rw [if_pos hlt]
        refine ⟨c, insertByLt candKeyLt a r, rfl,
          List.mem_cons_of_mem a hcmem, ?_⟩
        intro d hd
        rcases List.mem_cons.mp hd with hd | hd
        · rw [hd]
          exact candKeyLt_asymm a c hlt
        · exact hcmax d hd
      · rw [if_neg hlt]
        have hac : candKeyLt a c = false := Bool.eq_false_iff.mpr hlt
        refine ⟨a, c :: r, rfl, List.mem_cons_self a (b :: t2), ?_⟩
        intro d hd
        rcases List.mem_cons.mp hd with hd | hd
        · rw [hd]
          exact candKeyLt_irrefl a
        · exact candKeyLt_neg_trans a c d hac (hcmax d hd)

/-- C3 amended: whenever at least one horizontal gap yields a successful
binary-search candidate, the worker keeps exactly one candidate for the
`(symbol, continuous_days)` round — the candidate maximal in the
lexicographic `(exceed_prob, average)` order used by the sort (earliest
horizontal gap on ties), not the one with the largest vertical gap. -/
theorem kept_candidate_lex_max (mine : ℚ → MinerOracle) (hs : List ℚ)
    (hne : candidatesForCDays mine hs ≠ []) :
    ∃ c, keptCandidate mine hs = [c] ∧ c ∈ candidatesForCDays mine hs ∧
      ∀ d ∈ candidatesForCDays mine hs, candKeyLt c d = false := by
  rcases sortDesc_head_max (candidatesForCDays mine hs) hne with
    ⟨c, r, hsort, hmem, hmax⟩
  refine ⟨c, ?_, hmem, hmax⟩
  unfold keptCandidate
  rw [hsort]
  rfl

/-- Oracle family for the C3 counterexample.  For a fixed bar store
`exceed_prob` is a non-increasing step function of the vertical gap; here the
`h = 2` miner has top probability 0.9 below gap 100 and the `h = 1` miner
additionally offers a 0.8-probability point up to gap 150. -/
def cexMine : ℚ → MinerOracle := fun h => fun v =>
  if h == 2 then
    Except.ok (some (if v < 100 then ((9 : ℚ)/10, 899/10) else (0, 899/10)))
  else
    Except.ok (some (if v < 100 then ((9 : ℚ)/10, 899/10)
      else if v < 150 then ((8 : ℚ)/10, 120) else (0, 120)))

set_option maxRecDepth 10000 in
lemma cex_bsearch_h2 :
    bsearchBestValid (cexMine 2) 2 =
      some { exceed_prob := 9/10, average := 899/10,
             vertical_gap := 25575/256, horizontal_gap := 2 } := by
  norm_num [bsearchBestValid, bsearchLoop, bsearchNext, cexMine]

set_option maxRecDepth 10000 in
lemma cex_bsearch_h1 :
    bsearchBestValid (cexMine 1) 1 =
      some { exceed_prob := 8/10, average := 120,
             vertical_gap := 38375/256, horizontal_gap := 1 } := by
  norm_num [bsearchBestValid, bsearchLoop, bsearchNext, cexMine]

/-- C3 counterexample: with horizontal gaps `[2, 1]`, the binary searches
produce a candidate with vertical gap `25575/256 ≈ 99.9` and probability 0.9,
and a candidate with the *larger* vertical gap `38375/256 ≈ 149.9` and
probability 0.8; the worker keeps the former (maximal `(exceed_prob,
average)`), not the candidate with the largest successful vertical gap. -/
theorem kept_candidate_not_largest_v :
    keptCandidate cexMine [2, 1] =
      [{ exceed_prob := 9/10, average := 899/10,
         vertical_gap := 25575/256, horizontal_gap := 2 }] ∧
    { exceed_prob := 8/10, average := 120,
      vertical_gap := 38375/256, horizontal_gap := 1 } ∈
        candidatesForCDays cexMine [2, 1] ∧
    (25575/256 : ℚ) < 38375/256 := by
  have hc : candidatesForCDays cexMine [2, 1] =
      [{ exceed_prob := 9/10, average := 899/10,
         vertical_gap := 25575/256, horizontal_gap := 2 },
       { exceed_prob := 8/10, average := 120,
         vertical_gap := 38375/256, horizontal_gap := 1 }] := by
    unfold candidatesForCDays
    rw [List.filterMap_cons, List.filterMap_cons, List.filterMap_nil]
    rw [cex_bsearch_h2, cex_bsearch_h1]
  refine ⟨?_, ?_, by norm_num⟩
  · unfold keptCandidate
    rw [hc]
    norm_num [sortByLtDesc, insertByLt, candKeyLt]
  · rw [hc]
    simp

/-- C3 witness for the amended theorem: applied to the counterexample's
oracle family, where the candidate list is nonempty. -/
theorem kept_candidate_lex_max_witness :
    ∃ c, keptCandidate cexMine [2, 1] = [c] ∧
      c ∈ candidatesForCDays cexMine [2, 1] ∧
      ∀ d ∈ candidatesForCDays cexMine [2, 1], candKeyLt c d = false :=
  kept_candidate_lex_max cexMine [2, 1] (by
    unfold candidatesForCDays
    rw [List.filterMap_cons, cex_bsearch_h2]
    simp)

lemma bsearchLoop_error_bv (mine : MinerOracle) (h : ℚ)
    (herr : ∀ v, mine v = Except.error ()) :
    ∀ (fuel : Nat) (s : BSearchState),
      (bsearchLoop mine h fuel s).best_valid_point = s.best_valid_point := by
  intro fuel
  induction fuel with
  | zero => intro s; rfl
  | succ n ih =>
    intro s
    rw [bsearchLoop]
    by_cases hg : s.r_vgap - s.l_vgap > 1/10 ∧ s.max_itr > 0
    · rw [if_pos hg, ih]
      simp only [bsearchNext, herr]
    · rw [if_neg hg]

/-- C8 amended: on an empty bar mapping the miner raises `IndexError`
(`list(day_data.keys())[0]`), and when fewer accepted days than
`continuous_days` exist while at least one valid pair is scored it raises
`ZeroDivisionError` (`exceeded / total_count` with `total_count = 0`) — it
does not return an empty result.  The surrounding strategy run still
completes with zero results for the symbol: the binary-search loop catches
each exception, leaves no `best_valid_point`, and contributes no candidate
to `master_data`. -/
theorem miner_edge_cases (day0 : String × DayBars)
    (rest : List (String × DayBars)) (v h : ℚ) (k : Nat) (hk : 1 ≤ k)
    (hshort : ((day0 :: rest).filter
        (fun d => sameTimeSet (timeKeys day0.2) d.2)).length < k)
    (p0 : Nat × Nat) (prest : List (Nat × Nat))
    (hpairs : validPairs (timeKeys day0.2).length h = p0 :: prest) :
    find_best_points (day0 :: rest) v h k =
      Except.error MinerError.zeroDivision ∧
    (∀ (v2 h2 : ℚ) (k2 : Nat),
        find_best_points ([] : DayData) v2 h2 k2 =
          Except.error MinerError.indexError) ∧
    (∀ (mine : MinerOracle) (h3 : ℚ), (∀ v3, mine v3 = Except.error ()) →
        bsearchBestValid mine h3 = none) ∧
    (∀ (mines : ℚ → MinerOracle) (hs : List ℚ),
        (∀ h4 v4, mines h4 v4 = Except.error ()) →
        keptCandidate mines hs = []) := by
  have herrsearch : ∀ (mine : MinerOracle) (h3 : ℚ),
      (∀ v3, mine v3 = Except.error ()) → bsearchBestValid mine h3 = none := by
    intro mine h3 he
    unfold bsearchBestValid
    rw [bsearchLoop_error_bv mine h3 he]
  refine ⟨?_, fun _ _ _ => rfl, herrsearch, ?_⟩
  · rw [show find_best_points (day0 :: rest) v h k =
        (mapExcept (fun ij =>
          pairScore v k ((timeKeys day0.2).getD ij.1 "")
            ((timeKeys day0.2).getD ij.2 "")
            (((day0 :: rest).filter
                (fun d => sameTimeSet (timeKeys day0.2) d.2)).map (fun d =>
              (xSample (lookupBar d.2 ((timeKeys day0.2).getD ij.1 "")),
               ySample (lookupBar d.2 ((timeKeys day0.2).getD ij.2 ""))))))
          (validPairs (timeKeys day0.2).length h)).map
          (sortByLtDesc scoreKeyLt) from rfl]
    rw [hpairs]
    rw [mapExcept_err_head (fun ij =>
          pairScore v k ((timeKeys day0.2).getD ij.1 "")
            ((timeKeys day0.2).getD ij.2 "")
            (((day0 :: rest).filter
                (fun d => sameTimeSet (timeKeys day0.2) d.2)).map (fun d =>
              (xSample (lookupBar d.2 ((timeKeys day0.2).getD ij.1 "")),
               ySample (lookupBar d.2 ((timeKeys day0.2).getD ij.2 ""))))))
      p0 prest MinerError.zeroDivision
      (pairScore_short_err v k hk _ _ _
        (by rw [List.length_map]; exact hshort))]
    rfl
  · intro mines hs he
    unfold keptCandidate candidatesForCDays
    rw [List.filterMap_eq_nil_iff.mpr (fun h4 _ => herrsearch (mines h4) h4 (he h4))]
    rfl

/-- A one-day, one-time-point bar mapping for the C8 theorems. -/
def shortDayData : DayData :=
  [("d1", [("t0", { op := 3, hi := 3, lo := 3, cl := 3 })])]

/-- C8 witness: the amended theorem applied at a concrete short input
(one accepted day, `continuous_days = 2`, `horizontal_gap = 0` so the pair
`(0, 0)` is scored) and at concrete erroring oracles. -/
theorem miner_edge_cases_witness :
    find_best_points shortDayData 0 0 2 =
      Except.error MinerError.zeroDivision ∧
    (∀ (v2 h2 : ℚ) (k2 : Nat),
        find_best_points ([] : DayData) v2 h2 k2 =
          Except.error MinerError.indexError) ∧
    (∀ (mine : MinerOracle) (h3 : ℚ), (∀ v3, mine v3 = Except.error ()) →
        bsearchBestValid mine h3 = none) ∧
    (∀ (mines : ℚ → MinerOracle) (hs : List ℚ),
        (∀ h4 v4, mines h4 v4 = Except.error ()) →
        keptCandidate mines hs = []) :=
  miner_edge_cases ("d1", [("t0", { op := 3, hi := 3, lo := 3, cl := 3 })])
    [] 0 0 2 (by norm_num)
    (by norm_num [sameTimeSet, timeKeys])
    (0, 0) [] (by norm_num [validPairs, timeKeys, List.range_succ])

/-- C8 counterexample to the claim as stated: the miner does *not* return an
empty result on an empty bar mapping or when no full window exists — it
raises (IndexError, resp. ZeroDivisionError). -/
theorem miner_raises_on_edge_inputs :
    find_best_points ([] : DayData) 0 0 1 =
      Except.error MinerError.indexError ∧
    find_best_points shortDayData 0 0 2 =
      Except.error MinerError.zeroDivision := by
  constructor
  · rfl
  · norm_num [find_best_points, shortDayData, timeKeys, sameTimeSet,
      validPairs, List.range_succ, mapExcept, pairScore, pairStep,
      initPairState, lookupBar, List.lookup, xSample, ySample, retOf,
      Except.map]

/-! ### Task watchdog (`strategy_task_watcher.py`)

The store is the status-relevant projection of the four tables the watchdog
reads and writes.  `UPDATE ... WHERE id = ?` maps over a list;
`get_strategy_execution_details` joins `strategy_results`, embedded as the
`result_ids` membership test; the `handle_*` trigger queries join the three
workflow tables without that results join, exactly as in the source.
`change_strategy_execution_task_status` also writes `error_message` and
`executed_at`; those columns are not part of the claims and are not
modelled.  A task's scheduled time `day + timedelta(seconds=ts)` is
`day * 86400 + ts` with `day` the date ordinal; a task with a NULL
`timestamp_of_execution` makes `int(None)` raise, which the sweep's
surrounding `try` catches — embedded as the `Except` error path that aborts
the remainder of the sweep. -/

/-- A `strategy_executions` row. -/
structure WExec where
  id : Int
  status : String
  deriving DecidableEq

/-- A `strategy_execution_details` row. -/
structure WDetail where
  id : Int
  execution_id : Int
  strategy_result_id : Int
  status : String
  deriving DecidableEq

/-- A `strategy_execution_tasks` row (status-relevant columns). -/
structure WTask where
  id : Int
  execution_detail_id : Int
  status : String
  timestamp_of_execution : Option Int
  day_of_execution : Int
  deriving DecidableEq

/-- The watchdog's view of the database. -/
structure WStore where
  execs : List WExec
  details : List WDetail
  tasks : List WTask
  result_ids : List Int
  deriving DecidableEq

/-- Primary keys are unique. -/
def WStore.WF (s : WStore) : Prop :=
  (s.execs.map WExec.id).Nodup ∧ (s.details.map WDetail.id).Nodup ∧
  (s.tasks.map WTask.id).Nodup

/-- `change_strategy_execution_run_status`. -/
def setExecStatus (s : WStore) (i : Int) (st : String) : WStore :=
  { s with execs :=
      s.execs.map (fun e => if e.id = i then { e with status := st } else e) }

/-- `change_strategy_execution_detail_status`. -/
def setDetailStatus (s : WStore) (i : Int) (st : String) : WStore :=
  { s with details :=
      s.details.map (fun d => if d.id = i then { d with status := st } else d) }

/-- `change_strategy_execution_task_status` (status column). -/
def setTaskStatus (s : WStore) (i : Int) (st : String) : WStore :=
  { s with tasks :=
      s.tasks.map (fun t => if t.id = i then { t with status := st } else t) }

/-- `get_strategy_execution_details(execution_id)`: details of the execution
that join a `strategy_results` row. -/
def getJoinedDetails (s : WStore) (execId : Int) : List WDetail :=
  s.details.filter
    (fun d => d.execution_id = execId ∧ d.strategy_result_id ∈ s.result_ids)

/-- `get_strategy_execution_tasks_by_detail(execution_detail_id, status)`. -/
def getTasksByDetail (s : WStore) (detId : Int) (st : String) : List WTask :=
  s.tasks.filter
    (fun t => t.execution_detail_id = detId ∧ t.status = st)

/-- Fail every task of a fetched snapshot, one `UPDATE` per task. -/
def failTaskList (ts : List WTask) (s : WStore) : WStore :=
  ts.foldl (fun s2 t => setTaskStatus s2 t.id "failed") s

/-- The per-detail body of `recursively_mark_execution_failed`: fail the
detail, then fail its queued tasks, then its running tasks (each snapshot
fetched from the current store). -/
def markDetailFailed (s : WStore) (d : WDetail) : WStore :=
  let s1 := setDetailStatus s d.id "failed"
  let s2 := failTaskList (getTasksByDetail s1 d.id "queued") s1
  failTaskList (getTasksByDetail s2 d.id "running") s2

/-- `TaskWatcher.recursively_mark_execution_failed`: fail the execution, then
every joined detail with its queued and running tasks. -/
def recursively_mark_execution_failed (s : WStore) (execId : Int) : WStore :=
  let s1 := setExecStatus s execId "failed"
  (getJoinedDetails s1 execId).foldl markDetailFailed s1

/-- The scan over one running detail's queued-and-running tasks inside
`is_execution_zombie`: `int(None)` raises; otherwise a task whose scheduled
time lies more than `buffer` seconds in the past makes the execution a
zombie. -/
def zombieScanTasks (now buffer : Int) : List WTask → Except Unit Bool
  | [] => Except.ok false
  | t :: rest =>
    match t.timestamp_of_execution with
    | none => Except.error ()
    | some ts =>
      if now > t.day_of_execution * 86400 + ts + buffer then Except.ok true
      else zombieScanTasks now buffer rest

/-- The detail loop of `is_execution_zombie`: only `running` details are
scanned. -/
def zombieScanDetails (s : WStore) (now buffer : Int) :
    List WDetail → Except Unit Bool
  | [] => Except.ok false
  | d :: rest =>
    if d.status = "running" then
      match zombieScanTasks now buffer
          (getTasksByDetail s d.id "queued" ++
           getTasksByDetail s d.id "running") with
      | Except.error e => Except.error e
      | Except.ok true => Except.ok true
      | Except.ok false => zombieScanDetails s now buffer rest
    else zombieScanDetails s now buffer rest

/-- `TaskWatcher.is_execution_zombie`: an execution with no joined details is
a zombie; otherwise scan the running details. -/
def is_execution_zombie (s : WStore) (now buffer : Int) (execId : Int) :
    Except Unit Bool :=
  let ds := getJoinedDetails s execId
  if ds.isEmpty then Except.ok true else zombieScanDetails s now buffer ds

/-- The zombie part of `handle_1`: walk the snapshot of running execution
ids, failing each zombie; an exception aborts the whole sweep (the watcher's
`run` loop catches it), leaving the store as mutated so far. -/
def zombiePass (now buffer : Int) : List Int → WStore → WStore × Bool
  | [], s => (s, true)
  | i :: rest, s =>
    match is_execution_zombie s now buffer i with
    | Except.error _ => (s, false)
    | Except.ok true =>
      zombiePass now buffer rest (recursively_mark_execution_failed s i)
    | Except.ok false => zombiePass now buffer rest s

/-- The three-table join of the `handle_*` trigger queries (no
`strategy_results` join). -/
def joinRows (s : WStore) : List (WExec × WDetail × WTask) :=
  s.execs.flatMap (fun e =>
    (s.details.filter (fun d => d.execution_id = e.id)).flatMap (fun d =>
      (s.tasks.filter (fun t => t.execution_detail_id = d.id)).map
        (fun t => (e, d, t))))

/-- First-occurrence deduplication with an explicit seen set, as the Python
`execution_ids_handled` set. -/
def dedupFirstAux (seen : List Int) : List Int → List Int
  | [] => []
  | a :: l =>
    if a ∈ seen then dedupFirstAux seen l
    else a :: dedupFirstAux (a :: seen) l

/-- First-occurrence deduplication. -/
def dedupFirst (l : List Int) : List Int := dedupFirstAux [] l

/-- The execution ids a trigger query selects, first occurrence first. -/
def triggerIds (p : WExec × WDetail × WTask → Bool) (s : WStore) : List Int :=
  dedupFirst (((joinRows s).filter p).map (fun r => r.1.id))

/-- Fail every triggered execution in order. -/
def markAll (ids : List Int) (s : WStore) : WStore :=
  ids.foldl recursively_mark_execution_failed s

/-- Membership in `completed/failed`. -/
def isTerminal (st : String) : Bool := st = "completed" || st = "failed"

/-- Case 1.2: detail queued but task not queued, under a running execution. -/
def cond12 (r : WExec × WDetail × WTask) : Bool :=
  r.1.status = "running" && r.2.1.status = "queued" &&
    !(r.2.2.status = "queued")

/-- Case 1.3: detail terminal but task not terminal, under a running
execution. -/
def cond13 (r : WExec × WDetail × WTask) : Bool :=
  r.1.status = "running" && isTerminal r.2.1.status &&
    !(isTerminal r.2.2.status)

/-- Case 2: execution queued but a detail or task is not queued. -/
def cond2 (r : WExec × WDetail × WTask) : Bool :=
  r.1.status = "queued" &&
    (!(r.2.2.status = "queued") || !(r.2.1.status = "queued"))

/-- Case 3: execution terminal but a detail or task is not terminal. -/
def cond3 (r : WExec × WDetail × WTask) : Bool :=
  isTerminal r.1.status &&
    (!(isTerminal r.2.2.status) || !(isTerminal r.2.1.status))

/-- `TaskWatcher.handle_1`: the zombie pass over the snapshot of running
executions, then cases 1.2 and 1.3.  The boolean is false when the zombie
pass raised, in which case the rest of the sweep is skipped. -/
def handle_1 (now buffer : Int) (s : WStore) : WStore × Bool :=
  let runningIds :=
    (s.execs.filter (fun e => e.status = "running")).map (fun e => e.id)
  match zombiePass now buffer runningIds s with
  | (s1, false) => (s1, false)
  | (s1, true) =>
    let s2 := markAll (triggerIds cond12 s1) s1
    (markAll (triggerIds cond13 s2) s2, true)

/-- `TaskWatcher.handle_2`. -/
def handle_2 (s : WStore) : WStore := markAll (triggerIds cond2 s) s

/-- `TaskWatcher.handle_3`. -/
def handle_3 (s : WStore) : WStore := markAll (triggerIds cond3 s) s

/-- One full watchdog sweep: `handle_1(); handle_2(); handle_3()` inside one
`try`, so an exception in `handle_1` skips the rest. -/
def watchdogSweep (now buffer : Int) (s : WStore) : WStore :=
  match handle_1 now buffer s with
  | (s1, false) => s1
  | (s1, true) => handle_3 (handle_2 s1)

lemma mem_filter_map_id_iff {α : Type} (idf : α → Int) (l : List α)
    (hn : (l.map idf).Nodup) (P : α → Bool) (t : α) (ht : t ∈ l) :
    idf t ∈ (l.filter P).map idf ↔ P t = true := by
  constructor
  · intro hmem
    rcases List.mem_map.mp hmem with ⟨t2, ht2, hid⟩
    rcases List.mem_filter.mp ht2 with ⟨ht2l, hP⟩
    have : t2 = t := List.inj_on_of_nodup_map hn ht2l ht hid
    rw [← this]
    exact hP
  · intro hP
    exact List.mem_map.mpr ⟨t, List.mem_filter.mpr ⟨ht, hP⟩, rfl⟩

lemma failTaskList_closed :
    ∀ (ts : List WTask) (s : WStore),
    failTaskList ts s =
      { s with tasks := s.tasks.map (fun t =>
          if t.id ∈ ts.map WTask.id then { t with status := "failed" }
          else t) } := by
  intro ts
  induction ts with
  | nil =>
    intro s
    show s = _
    cases s with
    | mk e d tk r => simp [List.map_id]
  | cons a ts ih =>
    intro s
    show failTaskList ts (setTaskStatus s a.id "failed") = _
    rw [ih]
    cases s with
    | mk e d tk r =>
      simp only [setTaskStatus, List.map_map, List.map_cons]
      congr 1
      apply List.map_congr_left
      intro t _
      simp only [Function.comp_apply]
      by_cases h1 : t.id = a.id
      · rw [if_pos h1]
        have hmem : t.id ∈ a.id :: ts.map WTask.id := by
          rw [h1]
          exact List.mem_cons_self _ _
        rw [if_pos hmem]
        by_cases h2 : t.id ∈ ts.map WTask.id
        · rw [if_pos h2]
        · rw [if_neg h2]
      · rw [if_neg h1]
        by_cases h2 : t.id ∈ ts.map WTask.id
        · rw [if_pos h2, if_pos (List.mem_cons_of_mem _ h2)]
        · rw [if_neg h2, if_neg (by
            intro hc
            rcases List.mem_cons.mp hc with hc | hc
            · exact h1 hc
            · exact h2 hc)]

lemma map_id_tasks (u : WTask → WTask) (hu : ∀ t, (u t).id = t.id)
    (l : List WTask) : (l.map u).map WTask.id = l.map WTask.id := by
  rw [List.map_map]
  apply List.map_congr_left
  intro t _
  exact hu t

lemma failTaskList_filter (p : WTask → Bool) (s : WStore)
    (hnd : (s.tasks.map WTask.id).Nodup) :
    failTaskList (s.tasks.filter p) s =
      { s with tasks := s.tasks.map (fun t =>
          if p t then { t with status := "failed" } else t) } := by
  rw [failTaskList_closed]
  congr 1
  apply List.map_congr_left
  intro t ht
  have hiff := mem_filter_map_id_iff WTask.id s.tasks hnd p t ht
  by_cases hp : p t = true
  · rw [if_pos (hiff.mpr hp), if_pos hp]
  · rw [if_neg (fun hc => hp (hiff.mp hc)), if_neg hp]

lemma failTasks_get (s : WStore) (i : Int) (st : String)
    (hnd : (s.tasks.map WTask.id).Nodup) :
    failTaskList (getTasksByDetail s i st) s =
      { s with tasks := s.tasks.map (fun t =>
          if t.execution_detail_id = i ∧ t.status = st then
            { t with status := "failed" } else t) } := by
  have h := failTaskList_filter
    (fun t => decide (t.execution_detail_id = i ∧ t.status = st)) s hnd
  rw [show getTasksByDetail s i st = s.tasks.filter
      (fun t => decide (t.execution_detail_id = i ∧ t.status = st)) from rfl]
  rw [h]
  congr 1
  apply List.map_congr_left
  intro t _
  by_cases hc : t.execution_detail_id = i ∧ t.status = st
  · rw [if_pos (by simpa using hc), if_pos hc]
  · rw [if_neg (by simpa using hc), if_neg hc]

lemma nodup_after_condFail (s0 : WStore) (i : Int) (st : String)
    (hnd : (s0.tasks.map WTask.id).Nodup) :
    ((({ s0 with tasks := s0.tasks.map (fun t =>
        if t.execution_detail_id = i ∧ t.status = st then
          { t with status := "failed" } else t) } : WStore)).tasks.map
      WTask.id).Nodup := by
  show ((s0.tasks.map _).map WTask.id).Nodup
  rw [map_id_tasks]
  · exact hnd
  · intro t2
    by_cases h : t2.execution_detail_id = i ∧ t2.status = st
    · rw [if_pos h]
    · rw [if_neg h]

lemma markDetailFailed_closed (s : WStore) (d : WDetail)
    (wfT : (s.tasks.map WTask.id).Nodup) :
    markDetailFailed s d =
      { s with
        details := s.details.map (fun dd =>
          if dd.id = d.id then { dd with status := "failed" } else dd),
        tasks := s.tasks.map (fun t =>
          if t.execution_detail_id = d.id ∧
              (t.status = "queued" ∨ t.status = "running") then
            { t with status := "failed" } else t) } := by
  have sfr : ¬(("failed" : String) = "running") := by decide
  have srq : ¬(("running" : String) = "queued") := by decide
  have sfq : ¬(("failed" : String) = "queued") := by decide
  simp only [markDetailFailed]
  rw [failTasks_get (setDetailStatus s d.id "failed") d.id "queued" wfT]
  rw [failTasks_get _ d.id "running"
    (nodup_after_condFail (setDetailStatus s d.id "failed") d.id "queued" wfT)]
  rw [WStore.mk.injEq]
  refine ⟨rfl, rfl, ?_, rfl⟩
  dsimp only [setDetailStatus]
  rw [List.map_map]
  apply List.map_congr_left
  intro t _
  simp only [Function.comp_apply]
  by_cases hdet : t.execution_detail_id = d.id
  · by_cases hq : t.status = "queued"
    · simp [hdet, hq, sfr, sfq]
    · by_cases hrun : t.status = "running"
      · simp [hdet, hq, hrun, sfr, srq]
      · simp [hdet, hq, hrun]
  · simp [hdet]

lemma nodup_map_statusUpd (c : WTask → Prop) [DecidablePred c] (l : List WTask)
    (hnd : (l.map WTask.id).Nodup) :
    ((l.map (fun t => if c t then { t with status := "failed" } else t)).map
      WTask.id).Nodup := by
  rw [map_id_tasks]
  · exact hnd
  · intro t2
    by_cases h : c t2
    · rw [if_pos h]
    · rw [if_neg h]

lemma foldl_markDetail_closed :
    ∀ (ds : List WDetail) (s : WStore), (s.tasks.map WTask.id).Nodup →
    ds.foldl markDetailFailed s =
      { s with
        details := s.details.map (fun dd =>
          if dd.id ∈ ds.map WDetail.id then { dd with status := "failed" }
          else dd),
        tasks := s.tasks.map (fun t =>
          if t.execution_detail_id ∈ ds.map WDetail.id ∧
              (t.status = "queued" ∨ t.status = "running") then
            { t with status := "failed" } else t) } := by
  intro ds
  induction ds with
  | nil =>
    intro s hnd
    show s = _
    cases s with
    | mk es dss tks rids => simp
  | cons d ds ih =>
    intro s hnd
    rw [show (d :: ds).foldl markDetailFailed s =
        ds.foldl markDetailFailed (markDetailFailed s d) from rfl]
    rw [markDetailFailed_closed s d hnd]
    have hih := ih
      ({ s with
        details := s.details.map (fun dd =>
          if dd.id = d.id then { dd with status := "failed" } else dd),
        tasks := s.tasks.map (fun t =>
          if t.execution_detail_id = d.id ∧
              (t.status = "queued" ∨ t.status = "running") then
            { t with status := "failed" } else t) } : WStore)
      (nodup_map_statusUpd
        (fun t => t.execution_detail_id = d.id ∧
          (t.status = "queued" ∨ t.status = "running")) s.tasks hnd)
    rw [hih]
    have sfr : ¬(("failed" : String) = "running") := by decide
    have sfq : ¬(("failed" : String) = "queued") := by decide
    rw [WStore.mk.injEq]
    refine ⟨rfl, ?_, ?_, rfl⟩
    · dsimp only
      rw [List.map_map]
      apply List.map_congr_left
      intro dd _
      simp only [Function.comp_apply]
      by_cases hid : dd.id = d.id
      · simp [hid]
      · simp [hid]
    · dsimp only
      rw [List.map_map]
      apply List.map_congr_left
      intro t _
      simp only [Function.comp_apply]
      by_cases h1 : t.execution_detail_id = d.id ∧
          (t.status = "queued" ∨ t.status = "running")
      · rw [if_pos h1]
        rcases h1 with ⟨hdet, hqr⟩
        rcases hqr with hq | hr
        · simp [hdet, hq, sfr, sfq]
        · simp [hdet, hr, sfr, sfq]
      · rw [if_neg h1]
        by_cases hqr : t.status = "queued" ∨ t.status = "running"
        · have hdet2 : ¬(t.execution_detail_id = d.id) := fun hh => h1 ⟨hh, hqr⟩
          simp [hdet2]
        · simp [hqr]

/-- The task-level reach set of `recursively_mark_execution_failed`: tasks
whose detail joins the failed execution through a `strategy_results` row. -/
def rmTaskHit (s : WStore) (i : Int) (t : WTask) : Bool :=
  s.details.any (fun d0 => decide (d0.execution_id = i ∧
    d0.strategy_result_id ∈ s.result_ids ∧ t.execution_detail_id = d0.id))

lemma recursivelyMark_closed (s : WStore) (i : Int)
    (wfD : (s.details.map WDetail.id).Nodup)
    (wfT : (s.tasks.map WTask.id).Nodup) :
    recursively_mark_execution_failed s i =
      { execs := s.execs.map (fun e =>
          if e.id = i then { e with status := "failed" } else e),
        details := s.details.map (fun dd =>
          if dd.execution_id = i ∧ dd.strategy_result_id ∈ s.result_ids then
            { dd with status := "failed" } else dd),
        tasks := s.tasks.map (fun t =>
          if rmTaskHit s i t = true ∧
              (t.status = "queued" ∨ t.status = "running") then
            { t with status := "failed" } else t),
        result_ids := s.result_ids } := by
  simp only [recursively_mark_execution_failed]
  rw [show getJoinedDetails (setExecStatus s i "failed") i =
      getJoinedDetails s i from rfl]
  rw [foldl_markDetail_closed (getJoinedDetails s i)
    (setExecStatus s i "failed") wfT]
  rw [show getJoinedDetails s i = s.details.filter
      (fun d => decide (d.execution_id = i ∧
        d.strategy_result_id ∈ s.result_ids)) from rfl]
  rw [WStore.mk.injEq]
  refine ⟨rfl, ?_, ?_, rfl⟩
  · dsimp only [setExecStatus]
    apply List.map_congr_left
    intro dd hdd
    have hiff := mem_filter_map_id_iff WDetail.id s.details wfD
      (fun d => decide (d.execution_id = i ∧
        d.strategy_result_id ∈ s.result_ids)) dd hdd
    simp only [decide_eq_true_eq] at hiff
    by_cases hP : dd.execution_id = i ∧ dd.strategy_result_id ∈ s.result_ids
    · rw [if_pos (hiff.mpr hP), if_pos hP]
    · rw [if_neg (fun hc => hP (hiff.mp hc)), if_neg hP]
  · dsimp only [setExecStatus]
    apply List.map_congr_left
    intro t _
    have hhit : t.execution_detail_id ∈ (s.details.filter
        (fun d => decide (d.execution_id = i ∧
          d.strategy_result_id ∈ s.result_ids))).map WDetail.id ↔
        rmTaskHit s i t = true := by
      simp only [List.mem_map, List.mem_filter, decide_eq_true_eq,
        rmTaskHit, List.any_eq_true]
      constructor
      · rintro ⟨d0, ⟨hd0, hPd⟩, hid⟩
        exact ⟨d0, hd0, hPd.1, hPd.2, hid.symm⟩
      · rintro ⟨d0, hd0, h1, h2, h3⟩
        exact ⟨d0, ⟨hd0, h1, h2⟩, h3.symm⟩
    by_cases hqr : t.status = "queued" ∨ t.status = "running"
    · by_cases hm : rmTaskHit s i t = true
      · rw [if_pos ⟨hhit.mpr hm, hqr⟩, if_pos ⟨hm, hqr⟩]
      · rw [if_neg (fun hc => hm (hhit.mp hc.1)),
          if_neg (fun hc => hm hc.1)]
    · rw [if_neg (fun hc => hqr hc.2), if_neg (fun hc => hqr hc.2)]

/-- Concrete store for C4: a completed execution whose joined children are a
completed detail (with a completed task) and a queued detail (with a queued
task). -/
def cexC4store : WStore :=
  { execs := [⟨1, "completed"⟩],
    details := [⟨10, 1, 100, "completed"⟩, ⟨11, 1, 101, "queued"⟩],
    tasks := [⟨20, 10, "completed", some 0, 0⟩, ⟨21, 11, "queued", some 0, 0⟩],
    result_ids := [100, 101] }

/-- C4 counterexample: on a completed execution with one queued child, the
terminal-parent pass (`handle_3`) does not fail only the non-terminal
children: detail 10, already `completed`, is flipped to `failed` (the
completed task 20 is indeed left unchanged). -/
theorem handle_3_flips_completed_detail :
    cexC4store.details.map (fun d => (d.id, d.status)) =
      [((10 : Int), "completed"), (11, "queued")] ∧
    (handle_3 cexC4store).details.map (fun d => (d.id, d.status)) =
      [((10 : Int), "failed"), (11, "failed")] ∧
    (handle_3 cexC4store).tasks.map (fun t => (t.id, t.status)) =
      [((20 : Int), "completed"), (21, "failed")] := by
  refine ⟨rfl, ?_, ?_⟩ <;> decide

/-- C4 (amended): when `handle_3` triggers on an execution `i` with a
terminal-parent status skew, it fails the execution's joined details
regardless of their status - completed details included - while among the
tasks exactly the queued/running ones reachable through the join are failed,
so completed tasks (but not completed details) are left unchanged. -/
theorem handle_3_subtree_effect (s : WStore) (i : Int)
    (wfD : (s.details.map WDetail.id).Nodup)
    (wfT : (s.tasks.map WTask.id).Nodup)
    (htrig : triggerIds cond3 s = [i]) :
    (handle_3 s).details = s.details.map (fun dd =>
        if dd.execution_id = i ∧ dd.strategy_result_id ∈ s.result_ids then
          { dd with status := "failed" } else dd) ∧
    (handle_3 s).tasks = s.tasks.map (fun t =>
        if rmTaskHit s i t = true ∧
            (t.status = "queued" ∨ t.status = "running") then
          { t with status := "failed" } else t) ∧
    (∀ t ∈ s.tasks, t.status = "completed" → t ∈ (handle_3 s).tasks) := by
  have h : handle_3 s = recursively_mark_execution_failed s i := by
    simp only [handle_3, htrig]
    rfl
  refine ⟨?_, ?_, ?_⟩
  · rw [h, recursivelyMark_closed s i wfD wfT]
  · rw [h, recursivelyMark_closed s i wfD wfT]
  · intro t ht hst
    rw [h, recursivelyMark_closed s i wfD wfT]
    refine List.mem_map.mpr ⟨t, ht, ?_⟩
    rw [if_neg]
    intro hc
    rcases hc.2 with h2 | h2 <;> rw [hst] at h2 <;> exact absurd h2 (by decide)

/-- Witness for C4's amended theorem at the concrete store. -/
theorem handle_3_subtree_effect_witness :
    triggerIds cond3 cexC4store = [1] ∧
    ((handle_3 cexC4store).details = cexC4store.details.map (fun dd =>
        if dd.execution_id = 1 ∧ dd.strategy_result_id ∈ cexC4store.result_ids
        then { dd with status := "failed" } else dd) ∧
      (handle_3 cexC4store).tasks = cexC4store.tasks.map (fun t =>
        if rmTaskHit cexC4store 1 t = true ∧
            (t.status = "queued" ∨ t.status = "running") then
          { t with status := "failed" } else t) ∧
      (∀ t ∈ cexC4store.tasks, t.status = "completed" →
        t ∈ (handle_3 cexC4store).tasks)) :=
  ⟨by decide, handle_3_subtree_effect cexC4store 1 (by decide) (by decide)
    (by decide)⟩

/-- A task is reachable from some execution in `M` through the
details/results join. -/
def hitAny (s : WStore) (M : List Int) (t : WTask) : Prop :=
  ∃ d0 ∈ s.details, d0.execution_id ∈ M ∧
    d0.strategy_result_id ∈ s.result_ids ∧ t.execution_detail_id = d0.id

instance (s : WStore) (M : List Int) (t : WTask) : Decidable (hitAny s M t) :=
  List.decidableBEx _ s.details

/-- The cumulative effect of failing the executions in `M` (in any order):
each listed execution, its joined details, and the reachable queued/running
tasks are failed. -/
def applyMarks (M : List Int) (s : WStore) : WStore :=
  { execs := s.execs.map (fun e =>
      if e.id ∈ M then { e with status := "failed" } else e),
    details := s.details.map (fun d =>
      if d.execution_id ∈ M ∧ d.strategy_result_id ∈ s.result_ids then
        { d with status := "failed" } else d),
    tasks := s.tasks.map (fun t =>
      if hitAny s M t ∧ (t.status = "queued" ∨ t.status = "running") then
        { t with status := "failed" } else t),
    result_ids := s.result_ids }

lemma applyMarks_nil (s : WStore) : applyMarks [] s = s := by
  cases s with
  | mk es dss tks rids => simp [applyMarks, hitAny]

lemma rmTaskHit_iff (s : WStore) (i : Int) (t : WTask) :
    rmTaskHit s i t = true ↔
      ∃ d0 ∈ s.details, d0.execution_id = i ∧
        d0.strategy_result_id ∈ s.result_ids ∧
        t.execution_detail_id = d0.id := by
  simp [rmTaskHit, List.any_eq_true]

lemma hitAny_append (s : WStore) (M : List Int) (i : Int) (t : WTask) :
    hitAny s (M ++ [i]) t ↔ hitAny s M t ∨ rmTaskHit s i t = true := by
  rw [rmTaskHit_iff]
  constructor
  · rintro ⟨d0, hd0, hm, hr, hdet⟩
    rcases List.mem_append.mp hm with hm | hm
    · exact Or.inl ⟨d0, hd0, hm, hr, hdet⟩
    · exact Or.inr ⟨d0, hd0, by simpa using hm, hr, hdet⟩
  · rintro (⟨d0, hd0, hm, hr, hdet⟩ | ⟨d0, hd0, hm, hr, hdet⟩)
    · exact ⟨d0, hd0, List.mem_append.mpr (Or.inl hm), hr, hdet⟩
    · exact ⟨d0, hd0, List.mem_append.mpr (Or.inr (by simp [hm])), hr, hdet⟩

lemma applyMarks_exec_ids (M : List Int) (s : WStore) :
    (applyMarks M s).execs.map WExec.id = s.execs.map WExec.id := by
  dsimp only [applyMarks]
  rw [List.map_map]
  apply List.map_congr_left
  intro e _
  simp only [Function.comp_apply]
  by_cases h : e.id ∈ M
  · rw [if_pos h]
  · rw [if_neg h]

lemma applyMarks_detail_ids (M : List Int) (s : WStore) :
    (applyMarks M s).details.map WDetail.id = s.details.map WDetail.id := by
  dsimp only [applyMarks]
  rw [List.map_map]
  apply List.map_congr_left
  intro d _
  simp only [Function.comp_apply]
  by_cases h : d.execution_id ∈ M ∧ d.strategy_result_id ∈ s.result_ids
  · rw [if_pos h]
  · rw [if_neg h]

lemma applyMarks_task_ids (M : List Int) (s : WStore) :
    (applyMarks M s).tasks.map WTask.id = s.tasks.map WTask.id := by
  dsimp only [applyMarks]
  rw [List.map_map]
  apply List.map_congr_left
  intro t _
  simp only [Function.comp_apply]
  by_cases h : hitAny s M t ∧ (t.status = "queued" ∨ t.status = "running")
  · rw [if_pos h]
  · rw [if_neg h]

lemma applyMarks_congr (M N : List Int) (s : WStore)
    (h : ∀ a : Int, a ∈ M ↔ a ∈ N) : applyMarks M s = applyMarks N s := by
  dsimp only [applyMarks]
  rw [WStore.mk.injEq]
  refine ⟨?_, ?_, ?_, rfl⟩
  · apply List.map_congr_left
    intro e _
    by_cases he : e.id ∈ M
    · rw [if_pos he, if_pos ((h _).mp he)]
    · rw [if_neg he, if_neg (fun hc => he ((h _).mpr hc))]
  · apply List.map_congr_left
    intro d _
    by_cases hd : d.execution_id ∈ M ∧ d.strategy_result_id ∈ s.result_ids
    · rw [if_pos hd, if_pos ⟨(h _).mp hd.1, hd.2⟩]
    · rw [if_neg hd, if_neg (fun hc => hd ⟨(h _).mpr hc.1, hc.2⟩)]
  · apply List.map_congr_left
    intro t _
    have hit : hitAny s M t ↔ hitAny s N t := by
      constructor
      · rintro ⟨d0, hd0, hm, hr, hdet⟩
        exact ⟨d0, hd0, (h _).mp hm, hr, hdet⟩
      · rintro ⟨d0, hd0, hm, hr, hdet⟩
        exact ⟨d0, hd0, (h _).mpr hm, hr, hdet⟩
    by_cases ht : hitAny s M t ∧ (t.status = "queued" ∨ t.status = "running")
    · rw [if_pos ht, if_pos ⟨hit.mp ht.1, ht.2⟩]
    · rw [if_neg ht, if_neg (fun hc => ht ⟨hit.mpr hc.1, hc.2⟩)]

lemma applyMarks_append_subset (M N : List Int) (s : WStore)
    (h : ∀ a ∈ N, a ∈ M) : applyMarks (M ++ N) s = applyMarks M s :=
  applyMarks_congr _ _ s (fun a =>
    ⟨fun ha => (List.mem_append.mp ha).elim id (h a),
     fun ha => List.mem_append.mpr (Or.inl ha)⟩)

lemma rmTaskHit_applyMarks (s : WStore) (M : List Int) (i : Int) (t t' : WTask)
    (hdet : t'.execution_detail_id = t.execution_detail_id) :
    rmTaskHit (applyMarks M s) i t' = rmTaskHit s i t := by
  simp only [rmTaskHit]
  dsimp only [applyMarks]
  rw [List.any_map]
  rw [Bool.eq_iff_iff]
  simp only [List.any_eq_true, Function.comp_apply, decide_eq_true_eq]
  constructor
  · rintro ⟨d0, hd0, hprops⟩
    by_cases hc : d0.execution_id ∈ M ∧ d0.strategy_result_id ∈ s.result_ids
    · rw [if_pos hc] at hprops
      exact ⟨d0, hd0, hprops.1, hprops.2.1, by rw [← hdet]; exact hprops.2.2⟩
    · rw [if_neg hc] at hprops
      exact ⟨d0, hd0, hprops.1, hprops.2.1, by rw [← hdet]; exact hprops.2.2⟩
  · rintro ⟨d0, hd0, he, hr, hdd⟩
    refine ⟨d0, hd0, ?_⟩
    by_cases hc : d0.execution_id ∈ M ∧ d0.strategy_result_id ∈ s.result_ids
    · rw [if_pos hc]
      exact ⟨he, hr, by rw [hdet]; exact hdd⟩
    · rw [if_neg hc]
      exact ⟨he, hr, by rw [hdet]; exact hdd⟩

lemma rm_applyMarks (s : WStore) (M : List Int) (i : Int)
    (wfD : (s.details.map WDetail.id).Nodup)
    (wfT : (s.tasks.map WTask.id).Nodup) :
    recursively_mark_execution_failed (applyMarks M s) i =
      applyMarks (M ++ [i]) s := by
  have sfq : ¬(("failed" : String) = "queued") := by decide
  have sfr : ¬(("failed" : String) = "running") := by decide
  rw [recursivelyMark_closed (applyMarks M s) i
    (by rw [applyMarks_detail_ids]; exact wfD)
    (by rw [applyMarks_task_ids]; exact wfT)]
  dsimp only [applyMarks]
  rw [WStore.mk.injEq]
  refine ⟨?_, ?_, ?_, rfl⟩
  · rw [List.map_map]
    apply List.map_congr_left
    intro e _
    simp only [Function.comp_apply]
    by_cases hM : e.id ∈ M <;> by_cases hi : e.id = i
    · simp [hM, hi, hi ▸ hM]
    · simp [hM, hi]
    · simp [hM, hi, hi ▸ hM]
    · simp [hM, hi]
  · rw [List.map_map]
    apply List.map_congr_left
    intro d _
    simp only [Function.comp_apply]
    by_cases hr : d.strategy_result_id ∈ s.result_ids
    · by_cases hM : d.execution_id ∈ M <;> by_cases hi : d.execution_id = i
      · simp [hr, hM, hi, hi ▸ hM]
      · simp [hr, hM, hi]
      · simp [hr, hM, hi, hi ▸ hM]
      · simp [hr, hM, hi]
    · simp [hr]
  · rw [List.map_map]
    apply List.map_congr_left
    intro t _
    simp only [Function.comp_apply]
    by_cases h1 : hitAny s M t ∧ (t.status = "queued" ∨ t.status = "running")
    · rw [if_pos h1]
      rcases h1 with ⟨hh, hqr⟩
      rcases hqr with hq | hr2
      · simp [hitAny_append, hh, hq, sfq, sfr]
      · simp [hitAny_append, hh, hr2, sfq, sfr]
    · rw [if_neg h1]
      by_cases hqr : t.status = "queued" ∨ t.status = "running"
      · have hnm : ¬ hitAny s M t := fun hh => h1 ⟨hh, hqr⟩
        have hrh := rmTaskHit_applyMarks s M i t t rfl
        dsimp only [applyMarks] at hrh
        simp [hitAny_append, hnm, hrh]
      · simp [hqr]

lemma markAll_applyMarks :
    ∀ (ids M : List Int) (s : WStore),
    (s.details.map WDetail.id).Nodup → (s.tasks.map WTask.id).Nodup →
    markAll ids (applyMarks M s) = applyMarks (M ++ ids) s := by
  intro ids
  induction ids with
  | nil =>
    intro M s _ _
    rw [List.append_nil]
    rfl
  | cons j ids ih =>
    intro M s wfD wfT
    show markAll ids
      (recursively_mark_execution_failed (applyMarks M s) j) = _
    rw [rm_applyMarks s M j wfD wfT]
    rw [ih (M ++ [j]) s wfD wfT]
    rw [List.append_assoc]
    rfl

/-- The snapshot of running execution ids taken at the top of `handle_1`. -/
def runningIds (s : WStore) : List Int :=
  (s.execs.filter (fun e => e.status = "running")).map (fun e => e.id)

lemma handle_1_eq (now buffer : Int) (s : WStore) :
    handle_1 now buffer s =
      match zombiePass now buffer (runningIds s) s with
      | (s1, false) => (s1, false)
      | (s1, true) =>
        let s2 := markAll (triggerIds cond12 s1) s1
        (markAll (triggerIds cond13 s2) s2, true) := rfl

lemma runningIds_applyMarks (M : List Int) (s : WStore) :
    runningIds (applyMarks M s) =
      (runningIds s).filter (fun i => decide (i ∉ M)) := by
  have sfr : ¬(("failed" : String) = "running") := by decide
  dsimp only [runningIds, applyMarks]
  have key : ∀ l : List WExec,
      ((l.map (fun e =>
          if e.id ∈ M then { e with status := "failed" } else e)).filter
        (fun e => e.status = "running")).map (fun e => e.id) =
      ((l.filter (fun e => e.status = "running")).map (fun e => e.id)).filter
        (fun i => decide (i ∉ M)) := by
    intro l
    induction l with
    | nil => rfl
    | cons e l ih =>
      by_cases hM : e.id ∈ M
      · by_cases hrun : e.status = "running"
        · simp [hM, hrun, ih, sfr]
        · simp [hM, hrun, ih, sfr]
      · by_cases hrun : e.status = "running"
        · simp [hM, hrun, ih]
        · simp [hM, hrun, ih]
  exact key s.execs

lemma filter_map_invariant {α : Type} (u : α → α) (p : α → Bool) :
    ∀ l : List α,
    (∀ a ∈ l, p (u a) = p a ∧ (p a = true → u a = a)) →
    (l.map u).filter p = l.filter p := by
  intro l
  induction l with
  | nil => intro _; rfl
  | cons a l ih =>
    intro h
    have ha := h a (List.mem_cons_self a l)
    have hl := ih (fun b hb => h b (List.mem_cons_of_mem a hb))
    by_cases hp : p a = true
    · simp [ha.1, hp, ha.2 hp, hl]
    · simp [ha.1, hp, hl]

lemma getJoinedDetails_applyMarks (s : WStore) (M : List Int) (i : Int)
    (hi : i ∉ M) :
    getJoinedDetails (applyMarks M s) i = getJoinedDetails s i := by
  dsimp only [getJoinedDetails, applyMarks]
  apply filter_map_invariant
  intro d _
  constructor
  · by_cases hc : d.execution_id ∈ M ∧ d.strategy_result_id ∈ s.result_ids
    · rw [if_pos hc]
    · rw [if_neg hc]
  · intro hp
    have hand := of_decide_eq_true hp
    rw [if_neg]
    intro hc
    exact hi (hand.1 ▸ hc.1)

lemma hitAny_not_of_detail (s : WStore) (M : List Int) (d : WDetail)
    (wfD : (s.details.map WDetail.id).Nodup)
    (hd : d ∈ s.details) (hei : d.execution_id ∉ M) :
    ∀ t : WTask, t.execution_detail_id = d.id → ¬ hitAny s M t := by
  rintro t hdd ⟨d0, hd0, hm0, _, hdet0⟩
  have hid : d0.id = d.id := by rw [← hdet0, hdd]
  have : d0 = d :=
    List.inj_on_of_nodup_map wfD hd0 hd (by simpa using hid)
  exact hei (this ▸ hm0)

lemma getTasksByDetail_applyMarks (s : WStore) (M : List Int)
    (dId : Int) (st : String)
    (hclean : ∀ t : WTask, t.execution_detail_id = dId → ¬ hitAny s M t) :
    getTasksByDetail (applyMarks M s) dId st = getTasksByDetail s dId st := by
  dsimp only [getTasksByDetail, applyMarks]
  apply filter_map_invariant
  intro t _
  constructor
  · by_cases hc : hitAny s M t ∧ (t.status = "queued" ∨ t.status = "running")
    · rw [if_pos hc]
      have hne : ¬ (t.execution_detail_id = dId) :=
        fun hdd => hclean t hdd hc.1
      simp [hne]
    · rw [if_neg hc]
  · intro hp
    have hand := of_decide_eq_true hp
    rw [if_neg]
    intro hc
    exact hclean t hand.1 hc.1

lemma zombieScanDetails_applyMarks (s : WStore) (M : List Int)
    (now buffer : Int) (i : Int) (hi : i ∉ M)
    (wfD : (s.details.map WDetail.id).Nodup) :
    ∀ ds : List WDetail, (∀ d ∈ ds, d ∈ s.details ∧ d.execution_id = i) →
    zombieScanDetails (applyMarks M s) now buffer ds =
      zombieScanDetails s now buffer ds := by
  intro ds
  induction ds with
  | nil => intro _; rfl
  | cons d rest ih =>
    intro h
    have hd := h d (List.mem_cons_self d rest)
    have hrest := ih (fun d2 h2 => h d2 (List.mem_cons_of_mem d h2))
    have hclean : ∀ t : WTask, t.execution_detail_id = d.id →
        ¬ hitAny s M t :=
      hitAny_not_of_detail s M d wfD hd.1 (by rw [hd.2]; exact hi)
    have hq := getTasksByDetail_applyMarks s M d.id "queued" hclean
    have hr := getTasksByDetail_applyMarks s M d.id "running" hclean
    simp only [zombieScanDetails]
    rw [hq, hr, hrest]

lemma zombie_frame (s : WStore) (M : List Int) (now buffer : Int) (i : Int)
    (hi : i ∉ M) (wfD : (s.details.map WDetail.id).Nodup) :
    is_execution_zombie (applyMarks M s) now buffer i =
      is_execution_zombie s now buffer i := by
  simp only [is_execution_zombie]
  rw [getJoinedDetails_applyMarks s M i hi]
  by_cases hemp : (getJoinedDetails s i).isEmpty = true
  · rw [if_pos hemp, if_pos hemp]
  · rw [if_neg hemp, if_neg hemp]
    apply zombieScanDetails_applyMarks s M now buffer i hi wfD
    intro d hd
    have hmem := List.mem_filter.mp hd
    exact ⟨hmem.1, (of_decide_eq_true hmem.2).1⟩

/-- Pure trace of the zombie pass: which execution ids get marked, and
whether the pass completes without raising, with every scan evaluated on the
base store. -/
def zpSim (s : WStore) (now buffer : Int) : List Int → List Int →
    List Int × Bool
  | [], M => (M, true)
  | i :: rest, M =>
    match is_execution_zombie s now buffer i with
    | Except.error _ => (M, false)
    | Except.ok true => zpSim s now buffer rest (M ++ [i])
    | Except.ok false => zpSim s now buffer rest M

lemma zombiePass_sim (s : WStore) (now buffer : Int)
    (wfD : (s.details.map WDetail.id).Nodup)
    (wfT : (s.tasks.map WTask.id).Nodup) :
    ∀ (L M : List Int), (∀ i ∈ L, i ∉ M) → L.Nodup →
    zombiePass now buffer L (applyMarks M s) =
      (applyMarks (zpSim s now buffer L M).1 s,
        (zpSim s now buffer L M).2) := by
  intro L
  induction L with
  | nil => intro M _ _; rfl
  | cons i rest ih =>
    intro M hM hnd
    have hiM : i ∉ M := hM i (List.mem_cons_self i rest)
    have hfr := zombie_frame s M now buffer i hiM wfD
    cases hscan : is_execution_zombie s now buffer i with
    | error e =>
      rw [show zombiePass now buffer (i :: rest) (applyMarks M s) =
          (applyMarks M s, false) by
        simp only [zombiePass]
        rw [hfr, hscan]]
      rw [show zpSim s now buffer (i :: rest) M = (M, false) by
        simp only [zpSim]
        rw [hscan]]
    | ok b =>
      cases b with
      | true =>
        rw [show zombiePass now buffer (i :: rest) (applyMarks M s) =
            zombiePass now buffer rest
              (recursively_mark_execution_failed (applyMarks M s) i) by
          simp only [zombiePass]
          rw [hfr, hscan]]
        rw [show zpSim s now buffer (i :: rest) M =
            zpSim s now buffer rest (M ++ [i]) by
          simp only [zpSim]
          rw [hscan]]
        rw [rm_applyMarks s M i wfD wfT]
        refine ih (M ++ [i]) ?_ (List.nodup_cons.mp hnd).2
        intro j hj hjm
        rcases List.mem_append.mp hjm with h | h
        · exact hM j (List.mem_cons_of_mem i hj) h
        · have : j = i := by simpa using h
          exact (List.nodup_cons.mp hnd).1 (this ▸ hj)
      | false =>
        rw [show zombiePass now buffer (i :: rest) (applyMarks M s) =
            zombiePass now buffer rest (applyMarks M s) by
          simp only [zombiePass]
          rw [hfr, hscan]]
        rw [show zpSim s now buffer (i :: rest) M =
            zpSim s now buffer rest M by
          simp only [zpSim]
          rw [hscan]]
        exact ih M (fun j hj => hM j (List.mem_cons_of_mem i hj))
          (List.nodup_cons.mp hnd).2

lemma zpSim_mono (s : WStore) (now buffer : Int) :
    ∀ (L M : List Int) (a : Int), a ∈ M →
    a ∈ (zpSim s now buffer L M).1 := by
  intro L
  induction L with
  | nil => intro M a ha; exact ha
  | cons i rest ih =>
    intro M a ha
    simp only [zpSim]
    cases hscan : is_execution_zombie s now buffer i with
    | error e => exact ha
    | ok b =>
      cases b with
      | true => exact ih (M ++ [i]) a (List.mem_append.mpr (Or.inl ha))
      | false => exact ih M a ha

lemma zpSim_marks_sub (s : WStore) (now buffer : Int) :
    ∀ (L M : List Int) (a : Int), a ∈ (zpSim s now buffer L M).1 →
    a ∈ M ∨ a ∈ L := by
  intro L
  induction L with
  | nil => intro M a ha; exact Or.inl ha
  | cons i rest ih =>
    intro M a ha
    simp only [zpSim] at ha
    cases hscan : is_execution_zombie s now buffer i with
    | error e =>
      rw [hscan] at ha
      exact Or.inl ha
    | ok b =>
      cases b with
      | true =>
        rw [hscan] at ha
        rcases ih (M ++ [i]) a ha with h | h
        · rcases List.mem_append.mp h with h | h
          · exact Or.inl h
          · exact Or.inr (by simp at h; simp [h])
        · exact Or.inr (List.mem_cons_of_mem i h)
      | false =>
        rw [hscan] at ha
        rcases ih M a ha with h | h
        · exact Or.inl h
        · exact Or.inr (List.mem_cons_of_mem i h)

lemma zpSim_true_mem (s : WStore) (now buffer : Int) :
    ∀ (L M : List Int), (zpSim s now buffer L M).2 = true →
    ∀ i ∈ L, i ∉ (zpSim s now buffer L M).1 →
    is_execution_zombie s now buffer i = Except.ok false := by
  intro L
  induction L with
  | nil => intro M _ i hi; exact absurd hi (List.not_mem_nil i)
  | cons j rest ih =>
    intro M hflag i hi hni
    simp only [zpSim] at hflag hni
    cases hscan : is_execution_zombie s now buffer j with
    | error e =>
      rw [hscan] at hflag
      have hflag2 : (false : Bool) = true := hflag
      exact absurd hflag2 (by decide)
    | ok b =>
      cases b with
      | true =>
        rw [hscan] at hflag hni
        rcases List.mem_cons.mp hi with h | h
        · exfalso
          exact hni (zpSim_mono s now buffer rest (M ++ [j]) i
            (List.mem_append.mpr (Or.inr (by simp [h]))))
        · exact ih (M ++ [j]) hflag i h hni
      | false =>
        rw [hscan] at hflag hni
        rcases List.mem_cons.mp hi with h | h
        · rw [h]; exact hscan
        · exact ih M hflag i h hni

lemma zpSim_allfalse (s : WStore) (now buffer : Int) :
    ∀ (L M : List Int),
    (∀ i ∈ L, is_execution_zombie s now buffer i = Except.ok false) →
    zpSim s now buffer L M = (M, true) := by
  intro L
  induction L with
  | nil => intro M _; rfl
  | cons i rest ih =>
    intro M h
    simp only [zpSim]
    rw [h i (List.mem_cons_self i rest)]
    exact ih M (fun j hj => h j (List.mem_cons_of_mem i hj))

lemma zpSim_abort_rerun (s : WStore) (now buffer : Int) :
    ∀ (L M0 M' : List Int), (∀ i ∈ L, i ∉ M0) → L.Nodup →
    zpSim s now buffer L M0 = (M', false) →
    zpSim s now buffer (L.filter (fun i => decide (i ∉ M'))) M' =
      (M', false) := by
  intro L
  induction L with
  | nil =>
    intro M0 M' _ _ hsim
    have hsim2 : ((M0, true) : List Int × Bool) = (M', false) := hsim
    have hsnd : (true : Bool) = false := congrArg Prod.snd hsim2
    exact absurd hsnd (by decide)
  | cons i rest ih =>
    intro M0 M' hM0 hnd hsim
    have hiM0 : i ∉ M0 := hM0 i (List.mem_cons_self i rest)
    simp only [zpSim] at hsim
    cases hscan : is_execution_zombie s now buffer i with
    | error e =>
      rw [hscan] at hsim
      have hsim2 : ((M0, false) : List Int × Bool) = (M', false) := hsim
      have hM0M' : M0 = M' := congrArg Prod.fst hsim2
      subst hM0M'
      rw [List.filter_cons, if_pos (by simpa using hiM0)]
      simp only [zpSim]
      rw [hscan]
    | ok b =>
      cases b with
      | true =>
        rw [hscan] at hsim
        have hsim2 : zpSim s now buffer rest (M0 ++ [i]) = (M', false) :=
          hsim
        have hfst : (zpSim s now buffer rest (M0 ++ [i])).1 = M' :=
          congrArg Prod.fst hsim2
        have hiM' : i ∈ M' := by
          have := zpSim_mono s now buffer rest (M0 ++ [i]) i
            (List.mem_append.mpr (Or.inr (by simp)))
          rw [hfst] at this
          exact this
        rw [List.filter_cons, if_neg (by simpa using hiM')]
        refine ih (M0 ++ [i]) M' ?_ (List.nodup_cons.mp hnd).2 hsim2
        intro j hj hjm
        rcases List.mem_append.mp hjm with h | h
        · exact hM0 j (List.mem_cons_of_mem i hj) h
        · have : j = i := by simpa using h
          exact (List.nodup_cons.mp hnd).1 (this ▸ hj)
      | false =>
        rw [hscan] at hsim
        have hsim2 : zpSim s now buffer rest M0 = (M', false) := hsim
        have hfst : (zpSim s now buffer rest M0).1 = M' :=
          congrArg Prod.fst hsim2
        have hiM' : i ∉ M' := by
          intro hc
          rw [← hfst] at hc
          rcases zpSim_marks_sub s now buffer rest M0 i hc with h | h
          · exact hiM0 h
          · exact (List.nodup_cons.mp hnd).1 h
        rw [List.filter_cons, if_pos (by simpa using hiM')]
        simp only [zpSim]
        rw [hscan]
        exact ih M0 M' (fun j hj => hM0 j (List.mem_cons_of_mem i hj))
          (List.nodup_cons.mp hnd).2 hsim2

lemma mem_joinRows (s : WStore) (r : WExec × WDetail × WTask) :
    r ∈ joinRows s ↔ r.1 ∈ s.execs ∧ r.2.1 ∈ s.details ∧ r.2.2 ∈ s.tasks ∧
      r.2.1.execution_id = r.1.id ∧
      r.2.2.execution_detail_id = r.2.1.id := by
  rcases r with ⟨e, d, t⟩
  simp only [joinRows, List.mem_flatMap, List.mem_map, List.mem_filter,
    decide_eq_true_eq]
  constructor
  · rintro ⟨e0, he0, d0, ⟨hd0, hde⟩, t0, ⟨ht0, htd⟩, heq⟩
    obtain ⟨he, hd, ht⟩ : e0 = e ∧ d0 = d ∧ t0 = t := by
      simpa [Prod.ext_iff] using heq
    subst he
    subst hd
    subst ht
    exact ⟨he0, hd0, ht0, hde, htd⟩
  · rintro ⟨he, hd, ht, hde, htd⟩
    exact ⟨e, he, d, ⟨hd, hde⟩, t, ⟨ht, htd⟩, rfl⟩

lemma mem_dedupFirstAux :
    ∀ (l seen : List Int) (a : Int),
    a ∈ dedupFirstAux seen l ↔ a ∈ l ∧ a ∉ seen := by
  intro l
  induction l with
  | nil => intro seen a; simp [dedupFirstAux]
  | cons b l ih =>
    intro seen a
    by_cases hb : b ∈ seen
    · rw [show dedupFirstAux seen (b :: l) = dedupFirstAux seen l by
        simp [dedupFirstAux, hb]]
      rw [ih]
      constructor
      · rintro ⟨h1, h2⟩
        exact ⟨List.mem_cons_of_mem b h1, h2⟩
      · rintro ⟨h1, h2⟩
        rcases List.mem_cons.mp h1 with h1 | h1
        · exact absurd (h1 ▸ hb) h2
        · exact ⟨h1, h2⟩
    · rw [show dedupFirstAux seen (b :: l) =
          b :: dedupFirstAux (b :: seen) l by
        simp [dedupFirstAux, hb]]
      constructor
      · intro h
        rcases List.mem_cons.mp h with h | h
        · exact ⟨List.mem_cons.mpr (Or.inl h), h ▸ hb⟩
        · rcases (ih (b :: seen) a).mp h with ⟨h1, h2⟩
          exact ⟨List.mem_cons_of_mem b h1,
            fun hs => h2 (List.mem_cons_of_mem b hs)⟩
      · rintro ⟨h1, h2⟩
        rcases List.mem_cons.mp h1 with h1 | h1
        · exact List.mem_cons.mpr (Or.inl h1)
        · by_cases hab : a = b
          · exact List.mem_cons.mpr (Or.inl hab)
          · refine List.mem_cons.mpr (Or.inr ((ih (b :: seen) a).mpr
              ⟨h1, ?_⟩))
            intro hs
            rcases List.mem_cons.mp hs with hs | hs
            · exact hab hs
            · exact h2 hs

lemma mem_dedupFirst (l : List Int) (a : Int) :
    a ∈ dedupFirst l ↔ a ∈ l := by
  rw [dedupFirst, mem_dedupFirstAux]
  simp

lemma mem_triggerIds (p : WExec × WDetail × WTask → Bool) (s : WStore)
    (i : Int) :
    i ∈ triggerIds p s ↔
      ∃ r ∈ joinRows s, p r = true ∧ r.1.id = i := by
  rw [triggerIds, mem_dedupFirst]
  simp only [List.mem_map, List.mem_filter]
  constructor
  · rintro ⟨r, ⟨hr, hp⟩, hid⟩
    exact ⟨r, hr, hp, hid⟩
  · rintro ⟨r, hr, hp, hid⟩
    exact ⟨r, ⟨hr, hp⟩, hid⟩

lemma exec_marked_failed (s : WStore) (M : List Int) :
    ∀ e ∈ (applyMarks M s).execs, e.id ∈ M → e.status = "failed" := by
  intro e he hid
  have he2 : e ∈ s.execs.map (fun e0 =>
      if e0.id ∈ M then { e0 with status := "failed" } else e0) := he
  rcases List.mem_map.mp he2 with ⟨e0, he0, hee⟩
  by_cases hc : e0.id ∈ M
  · rw [if_pos hc] at hee
    rw [← hee]
  · rw [if_neg hc] at hee
    rw [← hee] at hid
    exact absurd hid hc

lemma mem_joinRows_applyMarks_unmarked (s : WStore) (M : List Int)
    (wfD : (s.details.map WDetail.id).Nodup)
    (r : WExec × WDetail × WTask)
    (hr : r ∈ joinRows (applyMarks M s)) (hid : r.1.id ∉ M) :
    r ∈ joinRows s := by
  rw [mem_joinRows] at hr ⊢
  obtain ⟨he, hd, ht, hde, htd⟩ := hr
  have he2 : r.1 ∈ s.execs.map (fun e0 =>
      if e0.id ∈ M then { e0 with status := "failed" } else e0) := he
  have hd2 : r.2.1 ∈ s.details.map (fun d0 =>
      if d0.execution_id ∈ M ∧ d0.strategy_result_id ∈ s.result_ids then
        { d0 with status := "failed" } else d0) := hd
  have ht2 : r.2.2 ∈ s.tasks.map (fun t0 =>
      if hitAny s M t0 ∧ (t0.status = "queued" ∨ t0.status = "running") then
        { t0 with status := "failed" } else t0) := ht
  rcases List.mem_map.mp he2 with ⟨e0, he0, hee⟩
  have hee2 : r.1 = e0 := by
    by_cases hc : e0.id ∈ M
    · rw [if_pos hc] at hee
      exfalso
      rw [← hee] at hid
      exact hid hc
    · rw [if_neg hc] at hee
      exact hee.symm
  rcases List.mem_map.mp hd2 with ⟨d0, hd0, hdd⟩
  have hdd2 : r.2.1 = d0 := by
    by_cases hc : d0.execution_id ∈ M ∧ d0.strategy_result_id ∈ s.result_ids
    · exfalso
      rw [if_pos hc] at hdd
      have : r.2.1.execution_id = d0.execution_id := by rw [← hdd]
      rw [hde] at this
      exact hid (this ▸ hc.1)
    · rw [if_neg hc] at hdd
      exact hdd.symm
  rcases List.mem_map.mp ht2 with ⟨t0, ht0, htt⟩
  have htt2 : r.2.2 = t0 := by
    by_cases hc : hitAny s M t0 ∧
        (t0.status = "queued" ∨ t0.status = "running")
    · exfalso
      rcases hc.1 with ⟨dd, hddm, hddM, _, hdet⟩
      have hdet2 : t0.execution_detail_id = r.2.2.execution_detail_id := by
        rw [← htt]
        by_cases hc2 : hitAny s M t0 ∧
            (t0.status = "queued" ∨ t0.status = "running")
        · rw [if_pos hc2]
        · rw [if_neg hc2]
      have hdid : dd.id = d0.id := by
        rw [← hdet, hdet2, htd, hdd2]
      have : dd = d0 :=
        List.inj_on_of_nodup_map wfD hddm hd0 (by simpa using hdid)
      rw [this] at hddM
      have hde0 : d0.execution_id = r.1.id := by
        rw [← hde, hdd2]
      exact hid (hde0 ▸ hddM)
    · rw [if_neg hc] at htt
      exact htt.symm
  rw [hee2, hdd2] at hde
  rw [hdd2, htt2] at htd
  rw [hee2, hdd2, htt2]
  exact ⟨he0, hd0, ht0, hde, htd⟩

lemma mem_joinRows_applyMarks_intro (s : WStore) (M : List Int)
    (wfD : (s.details.map WDetail.id).Nodup)
    (r : WExec × WDetail × WTask)
    (hr : r ∈ joinRows s) (hid : r.1.id ∉ M) :
    r ∈ joinRows (applyMarks M s) := by
  rw [mem_joinRows] at hr ⊢
  obtain ⟨he, hd, ht, hde, htd⟩ := hr
  refine ⟨?_, ?_, ?_, hde, htd⟩
  · show r.1 ∈ s.execs.map _
    refine List.mem_map.mpr ⟨r.1, he, ?_⟩
    rw [if_neg hid]
  · show r.2.1 ∈ s.details.map _
    refine List.mem_map.mpr ⟨r.2.1, hd, ?_⟩
    rw [if_neg]
    intro hc
    exact hid (hde ▸ hc.1)
  · show r.2.2 ∈ s.tasks.map _
    refine List.mem_map.mpr ⟨r.2.2, ht, ?_⟩
    rw [if_neg]
    rintro ⟨⟨dd, hddm, hddM, _, hdet⟩, _⟩
    have hdid : dd.id = r.2.1.id := by rw [← hdet, htd]
    have : dd = r.2.1 :=
      List.inj_on_of_nodup_map wfD hddm hd (by simpa using hdid)
    rw [this] at hddM
    exact hid (hde ▸ hddM)

lemma triggerIds_stable (p : WExec × WDetail × WTask → Bool) (s : WStore)
    (wfD : (s.details.map WDetail.id).Nodup) (M N : List Int)
    (hMN : ∀ a ∈ M, a ∈ N) :
    ∀ i, i ∈ triggerIds p (applyMarks N s) → i ∉ N →
    i ∈ triggerIds p (applyMarks M s) := by
  intro i hi hiN
  rcases (mem_triggerIds p (applyMarks N s) i).mp hi with ⟨r, hr, hp, hid⟩
  have hrid : r.1.id ∉ N := by rw [hid]; exact hiN
  have h1 : r ∈ joinRows s :=
    mem_joinRows_applyMarks_unmarked s N wfD r hr hrid
  have h2 : r ∈ joinRows (applyMarks M s) :=
    mem_joinRows_applyMarks_intro s M wfD r h1
      (fun hc => hrid (hMN _ hc))
  exact (mem_triggerIds p (applyMarks M s) i).mpr ⟨r, h2, hp, hid⟩

lemma trigger_applyMarks_nil (p : WExec × WDetail × WTask → Bool)
    (st0 : String) (hp : ∀ r, p r = true → r.1.status = st0)
    (hst : ¬(st0 = "failed")) (s : WStore)
    (wfD : (s.details.map WDetail.id).Nodup) (M N : List Int)
    (hMN : ∀ a ∈ M, a ∈ N)
    (hT : ∀ a, a ∈ triggerIds p (applyMarks M s) → a ∈ N) :
    triggerIds p (applyMarks N s) = [] := by
  rw [List.eq_nil_iff_forall_not_mem]
  intro i hi
  rcases (mem_triggerIds p (applyMarks N s) i).mp hi with ⟨r, hr, hpr, hid⟩
  have hstat := hp r hpr
  have hiN : r.1.id ∉ N := by
    intro hc
    have hf := exec_marked_failed s N r.1
      ((mem_joinRows (applyMarks N s) r).mp hr).1 hc
    rw [hstat] at hf
    exact hst hf
  have hmem := triggerIds_stable p s wfD M N hMN i hi (hid ▸ hiN)
  exact (hid ▸ hiN) (hT i hmem)

lemma trigger_applyMarks_subset (p : WExec × WDetail × WTask → Bool)
    (s : WStore) (wfD : (s.details.map WDetail.id).Nodup) (M N : List Int)
    (hMN : ∀ a ∈ M, a ∈ N)
    (hT : ∀ a, a ∈ triggerIds p (applyMarks M s) → a ∈ N) :
    ∀ i ∈ triggerIds p (applyMarks N s), i ∈ N := by
  intro i hi
  by_contra hiN
  exact hiN (hT i (triggerIds_stable p s wfD M N hMN i hi hiN))

lemma cond12_running (r : WExec × WDetail × WTask) :
    cond12 r = true → r.1.status = "running" := by
  intro h
  simp only [cond12, Bool.and_eq_true, decide_eq_true_eq] at h
  exact h.1.1

lemma cond13_running (r : WExec × WDetail × WTask) :
    cond13 r = true → r.1.status = "running" := by
  intro h
  simp only [cond13, Bool.and_eq_true, decide_eq_true_eq] at h
  exact h.1.1

lemma cond2_queued (r : WExec × WDetail × WTask) :
    cond2 r = true → r.1.status = "queued" := by
  intro h
  simp only [cond2, Bool.and_eq_true, decide_eq_true_eq] at h
  exact h.1

lemma sweep1_eq (now buffer : Int) (s : WStore)
    (wfD : (s.details.map WDetail.id).Nodup)
    (wfT : (s.tasks.map WTask.id).Nodup)
    (Mz T12 M1 T13 M2 T2 M3 T3 M4 : List Int)
    (hzp1 : zombiePass now buffer (runningIds s) s = (applyMarks Mz s, true))
    (hT12 : T12 = triggerIds cond12 (applyMarks Mz s))
    (hM1 : M1 = Mz ++ T12)
    (hT13 : T13 = triggerIds cond13 (applyMarks M1 s))
    (hM2 : M2 = M1 ++ T13)
    (hT2 : T2 = triggerIds cond2 (applyMarks M2 s))
    (hM3 : M3 = M2 ++ T2)
    (hT3 : T3 = triggerIds cond3 (applyMarks M3 s))
    (hM4 : M4 = M3 ++ T3) :
    watchdogSweep now buffer s = applyMarks M4 s := by
  simp only [watchdogSweep]
  rw [handle_1_eq, hzp1]
  show handle_3 (handle_2 (markAll
    (triggerIds cond13 (markAll (triggerIds cond12 (applyMarks Mz s))
      (applyMarks Mz s)))
    (markAll (triggerIds cond12 (applyMarks Mz s)) (applyMarks Mz s)))) =
    applyMarks M4 s
  rw [← hT12]
  rw [markAll_applyMarks T12 Mz s wfD wfT]
  rw [← hM1]
  rw [← hT13]
  rw [markAll_applyMarks T13 M1 s wfD wfT]
  rw [← hM2]
  simp only [handle_2]
  rw [← hT2]
  rw [markAll_applyMarks T2 M2 s wfD wfT]
  rw [← hM3]
  simp only [handle_3]
  rw [← hT3]
  rw [markAll_applyMarks T3 M3 s wfD wfT]
  rw [← hM4]

lemma sweep2_fixed (now buffer : Int) (s : WStore)
    (wfE : (s.execs.map WExec.id).Nodup)
    (wfD : (s.details.map WDetail.id).Nodup)
    (wfT : (s.tasks.map WTask.id).Nodup)
    (Mz T12 M1 T13 M2 T2 M3 T3 M4 : List Int)
    (hzs : zpSim s now buffer (runningIds s) [] = (Mz, true))
    (hT12 : T12 = triggerIds cond12 (applyMarks Mz s))
    (hM1 : M1 = Mz ++ T12)
    (hT13 : T13 = triggerIds cond13 (applyMarks M1 s))
    (hM2 : M2 = M1 ++ T13)
    (hT2 : T2 = triggerIds cond2 (applyMarks M2 s))
    (hM3 : M3 = M2 ++ T2)
    (hT3 : T3 = triggerIds cond3 (applyMarks M3 s))
    (hM4 : M4 = M3 ++ T3) :
    watchdogSweep now buffer (applyMarks M4 s) = applyMarks M4 s := by
  have hL0nd : (runningIds s).Nodup := by
    have hsub : List.Sublist (runningIds s)
        (s.execs.map (fun e => e.id)) := by
      dsimp only [runningIds]
      exact List.Sublist.map _ (List.filter_sublist _)
    exact List.Nodup.sublist hsub wfE
  have hMzM1 : ∀ a ∈ Mz, a ∈ M1 := by
    intro a ha
    rw [hM1]
    exact List.mem_append.mpr (Or.inl ha)
  have hT12M1 : ∀ a ∈ T12, a ∈ M1 := by
    intro a ha
    rw [hM1]
    exact List.mem_append.mpr (Or.inr ha)
  have hM1M2 : ∀ a ∈ M1, a ∈ M2 := by
    intro a ha
    rw [hM2]
    exact List.mem_append.mpr (Or.inl ha)
  have hT13M2 : ∀ a ∈ T13, a ∈ M2 := by
    intro a ha
    rw [hM2]
    exact List.mem_append.mpr (Or.inr ha)
  have hM2M3 : ∀ a ∈ M2, a ∈ M3 := by
    intro a ha
    rw [hM3]
    exact List.mem_append.mpr (Or.inl ha)
  have hT2M3 : ∀ a ∈ T2, a ∈ M3 := by
    intro a ha
    rw [hM3]
    exact List.mem_append.mpr (Or.inr ha)
  have hM3M4 : ∀ a ∈ M3, a ∈ M4 := by
    intro a ha
    rw [hM4]
    exact List.mem_append.mpr (Or.inl ha)
  have hT3M4 : ∀ a ∈ T3, a ∈ M4 := by
    intro a ha
    rw [hM4]
    exact List.mem_append.mpr (Or.inr ha)
  have hM2M4 : ∀ a ∈ M2, a ∈ M4 := fun a ha => hM3M4 a (hM2M3 a ha)
  have hM1M4 : ∀ a ∈ M1, a ∈ M4 := fun a ha => hM2M4 a (hM1M2 a ha)
  have hMzM4 : ∀ a ∈ Mz, a ∈ M4 := fun a ha => hM1M4 a (hMzM1 a ha)
  have hL' : runningIds (applyMarks M4 s) =
      (runningIds s).filter (fun i => decide (i ∉ M4)) :=
    runningIds_applyMarks M4 s
  have hscanfalse : ∀ i ∈ (runningIds s).filter (fun i => decide (i ∉ M4)),
      is_execution_zombie s now buffer i = Except.ok false := by
    intro i hi
    have h1 : i ∈ runningIds s := (List.mem_filter.mp hi).1
    have h2 : i ∉ M4 := by simpa using (List.mem_filter.mp hi).2
    have h3 : i ∉ Mz := fun hc => h2 (hMzM4 i hc)
    exact zpSim_true_mem s now buffer (runningIds s) [] (by rw [hzs]) i h1
      (by rw [hzs]; exact h3)
  have hzsim2 : zpSim s now buffer
      ((runningIds s).filter (fun i => decide (i ∉ M4))) M4 = (M4, true) :=
    zpSim_allfalse s now buffer _ M4 hscanfalse
  have hzp2 : zombiePass now buffer
      ((runningIds s).filter (fun i => decide (i ∉ M4)))
      (applyMarks M4 s) = (applyMarks M4 s, true) := by
    have h := zombiePass_sim s now buffer wfD wfT
      ((runningIds s).filter (fun i => decide (i ∉ M4))) M4
      (by
        intro i hi
        simpa using (List.mem_filter.mp hi).2)
      (List.Nodup.filter _ hL0nd)
    rw [hzsim2] at h
    exact h
  have h12nil : triggerIds cond12 (applyMarks M4 s) = [] :=
    trigger_applyMarks_nil cond12 "running" cond12_running (by decide)
      s wfD Mz M4 hMzM4
      (by
        intro a ha
        exact hM1M4 a (hT12M1 a (hT12.symm ▸ ha)))
  have h13nil : triggerIds cond13 (applyMarks M4 s) = [] :=
    trigger_applyMarks_nil cond13 "running" cond13_running (by decide)
      s wfD M1 M4 hM1M4
      (by
        intro a ha
        exact hM2M4 a (hT13M2 a (hT13.symm ▸ ha)))
  have h2nil : triggerIds cond2 (applyMarks M4 s) = [] :=
    trigger_applyMarks_nil cond2 "queued" cond2_queued (by decide)
      s wfD M2 M4 hM2M4
      (by
        intro a ha
        exact hM3M4 a (hT2M3 a (hT2.symm ▸ ha)))
  have h3sub : ∀ i ∈ triggerIds cond3 (applyMarks M4 s), i ∈ M4 :=
    trigger_applyMarks_subset cond3 s wfD M3 M4 hM3M4
      (by
        intro a ha
        exact hT3M4 a (hT3.symm ▸ ha))
  have mAnil : markAll ([] : List Int) (applyMarks M4 s) =
      applyMarks M4 s := rfl
  simp only [watchdogSweep]
  rw [handle_1_eq, hL', hzp2]
  show handle_3 (handle_2 (markAll
    (triggerIds cond13 (markAll (triggerIds cond12 (applyMarks M4 s))
      (applyMarks M4 s)))
    (markAll (triggerIds cond12 (applyMarks M4 s)) (applyMarks M4 s)))) =
    applyMarks M4 s
  rw [h12nil, mAnil, h13nil, mAnil]
  simp only [handle_2]
  rw [h2nil, mAnil]
  simp only [handle_3]
  rw [markAll_applyMarks (triggerIds cond3 (applyMarks M4 s)) M4 s wfD wfT]
  exact applyMarks_append_subset M4 _ s h3sub

/-- C5: one full watchdog sweep is idempotent. Under unique primary keys,
running `handle_1(); handle_2(); handle_3()` a second time on the store the
first sweep produced changes nothing: the second zombie pass re-checks only
executions the first sweep left running (their subtrees are untouched, so
each scan returns the same verdict, including re-raising at the same
execution in the abort case before any new write), and every row the skew
queries would select again belongs to an execution that was already failed,
so re-marking it rewrites identical statuses. -/
theorem watchdog_sweep_idempotent (now buffer : Int) (s : WStore)
    (hWF : s.WF) :
    watchdogSweep now buffer (watchdogSweep now buffer s) =
      watchdogSweep now buffer s := by
  obtain ⟨wfE, wfD, wfT⟩ := hWF
  have hL0nd : (runningIds s).Nodup := by
    have hsub : List.Sublist (runningIds s)
        (s.execs.map (fun e => e.id)) := by
      dsimp only [runningIds]
      exact List.Sublist.map _ (List.filter_sublist _)
    exact List.Nodup.sublist hsub wfE
  rcases hzs : zpSim s now buffer (runningIds s) [] with ⟨Mz, flag⟩
  have hzp1 : zombiePass now buffer (runningIds s) s =
      (applyMarks Mz s, flag) := by
    have h := zombiePass_sim s now buffer wfD wfT (runningIds s) []
      (by intro i _ hc; exact absurd hc (List.not_mem_nil i)) hL0nd
    rw [applyMarks_nil] at h
    rw [hzs] at h
    exact h
  cases flag with
  | false =>
    have hsw1 : watchdogSweep now buffer s = applyMarks Mz s := by
      simp only [watchdogSweep]
      rw [handle_1_eq, hzp1]
    rw [hsw1]
    have hrerun := zpSim_abort_rerun s now buffer (runningIds s) [] Mz
      (by intro i _ hc; exact absurd hc (List.not_mem_nil i)) hL0nd hzs
    have hzp2 : zombiePass now buffer
        ((runningIds s).filter (fun i => decide (i ∉ Mz)))
        (applyMarks Mz s) = (applyMarks Mz s, false) := by
      have h := zombiePass_sim s now buffer wfD wfT
        ((runningIds s).filter (fun i => decide (i ∉ Mz))) Mz
        (by intro i hi; simpa using (List.mem_filter.mp hi).2)
        (List.Nodup.filter _ hL0nd)
      rw [hrerun] at h
      exact h
    simp only [watchdogSweep]
    rw [handle_1_eq, runningIds_applyMarks Mz s, hzp2]
  | true =>
    rw [sweep1_eq now buffer s wfD wfT Mz _ _ _ _ _ _ _ _ hzp1
      rfl rfl rfl rfl rfl rfl rfl rfl]
    exact sweep2_fixed now buffer s wfE wfD wfT Mz _ _ _ _ _ _ _ _ hzs
      rfl rfl rfl rfl rfl rfl rfl rfl

/-- Concrete store for the C5 witness: a running execution with an overdue
queued task (a zombie) and a completed execution with a queued child. -/
def wdIdemStore : WStore :=
  { execs := [⟨1, "running"⟩, ⟨2, "completed"⟩],
    details := [⟨10, 1, 100, "running"⟩, ⟨20, 2, 200, "queued"⟩],
    tasks := [⟨30, 10, "queued", some 0, 0⟩, ⟨40, 20, "queued", some 0, 0⟩],
    result_ids := [100, 200] }

/-- Witness for C5 at a concrete store. -/
theorem watchdog_sweep_idempotent_witness :
    wdIdemStore.WF ∧
      watchdogSweep 1000000 600 (watchdogSweep 1000000 600 wdIdemStore) =
        watchdogSweep 1000000 600 wdIdemStore :=
  ⟨⟨by decide, by decide, by decide⟩,
    watchdog_sweep_idempotent 1000000 600 wdIdemStore
      ⟨by decide, by decide, by decide⟩⟩
